import Mathlib

set_option linter.unusedVariables false

/-!
Shallow embedding of the SCD Type-2 customer-dimension engine of the repository:
`Transformer.scd_type_2` (src/transformation.py), the first-load branch of the
customer dimension load and the temporal fact-to-dimension resolution of
`run_pipeline` (src/main.py).

A pandas DataFrame is modelled as a `Frame`: a list of column names plus a list
of rows, each row an association list from column name to cell value.  A pair
absent from a row is a NaN cell; `astype(str)` renders NaN as the string "nan",
which `cellStr` mirrors.  Dates travel as the strings the pipeline carries
(`9999-12-31` is the open-end sentinel); in the resolver the pipeline has
already coerced them to timestamps, modelled as `Nat` in `YYYYMMDD` encoding.
-/

/-- One data row: association list column name to cell value; absent = NaN. -/
abbrev Row := List (String × String)

/-- Cell lookup: first matching column wins (column names are unique in a frame). -/
def getCell (r : Row) (c : String) : Option String :=
  (r.find? (fun p => p.1 == c)).map (fun p => p.2)

/-- `astype(str)` on one cell: a NaN cell prints as "nan". -/
def cellStr (v : Option String) : String := v.getD "nan"

/-- Column assignment `df[c] = v` restricted to one row: overwrite the cell. -/
def setCell (r : Row) (c : String) (v : String) : Row :=
  (r.filter (fun p => !(p.1 == c))) ++ [(c, v)]

/-- Column projection `df[cols]` restricted to one row (NaN cells stay NaN). -/
def projectRow (cols : List String) (r : Row) : Row :=
  cols.filterMap (fun c => (getCell r c).map (fun v => (c, v)))

/-- The tuple of join-key cell values of a row; `pd.merge` matches rows on it. -/
def rowKey (keys : List String) (r : Row) : List (Option String) :=
  keys.map (fun k => getCell r k)

/-- A DataFrame: its column names and its rows. -/
structure Frame where
  cols : List String
  rows : List Row

/-- pandas suffix rule of `pd.merge(..., suffixes=("", "_old"))`: a column of the
right (existing) frame is renamed `c_old` exactly when it also occurs in the left
(incoming) frame and is not a join key; left-frame columns keep their names. -/
def oldColName (newCols keys : List String) (c : String) : String :=
  if newCols.contains c && !(keys.contains c) then c ++ "_old" else c

/-- The non-key cells of an existing row as they appear in the merged frame,
renamed under the suffix rule. -/
def renameOld (newCols keys : List String) (e : Row) : Row :=
  (e.filter (fun p => !(keys.contains p.1))).map
    (fun p => (oldColName newCols keys p.1, p.2))

/-- The existing rows whose join-key tuple equals that of the incoming row. -/
def matchesOf (keys : List String) (exist : List Row) (r : Row) : List Row :=
  exist.filter (fun e => rowKey keys e == rowKey keys r)

/-- `pd.merge(new_df, existing_df, on=keys, how="left", indicator=True)`:
each incoming row is paired with every matching existing row (`_merge = "both"`,
second component `some`), or with nothing when no key matches
(`_merge = "left_only"`, second component `none`). -/
def leftMerge (newRows existRows : List Row) (keys : List String) :
    List (Row × Option Row) :=
  newRows.flatMap (fun r =>
    match matchesOf keys existRows r with
    | [] => [(r, none)]
    | es => es.map (fun e => (r, some e)))

/-- The cells of one merged record: the incoming row followed by the matched
existing row with join-key columns dropped and the suffix rule applied. -/
def mergedRow (newCols keys : List String) (m : Row × Option Row) : Row :=
  m.1 ++ (match m.2 with
          | some e => renameOld newCols keys e
          | none => [])

/-- The column list of the merged frame. -/
def mergedCols (newCols existCols keys : List String) : List String :=
  newCols ++ (existCols.filter (fun c => !(keys.contains c))).map
    (oldColName newCols keys)

/-- `create_hash(df, cols)` on one row: `df[cols].astype(str).sum(axis=1)`,
the concatenation of the stringified cells of `cols` in order. -/
def rowConcat (cols : List String) (r : Row) : String :=
  String.join (cols.map (fun c => cellStr (getCell r c)))

/-- `df[cols]` raises KeyError unless every requested column is a frame column;
this is the guard under which `create_hash` succeeds. -/
def hashOk (cols frameCols : List String) : Bool :=
  cols.all (fun c => frameCols.contains c)

/-- The change test of `scd_type_2`: `new_hash != old_hash` on one merged record,
where `new_hash` concatenates the compare columns and `old_hash` concatenates
their `_old`-suffixed counterparts. -/
def isChanged (newCols keys cmp : List String) (m : Row × Option Row) : Bool :=
  rowConcat cmp (mergedRow newCols keys m)
    != rowConcat (cmp.map (fun c => c ++ "_old")) (mergedRow newCols keys m)

/-- The open-end sentinel `scd_type_2` writes into `eff_end_dt`. -/
def SENTINEL : String := "9999-12-31"

/-- One insert row of `scd_type_2`: the merged record projected to the incoming
columns, then `current_flag = 1`, `eff_start_dt = datetime.now().date()` (the
processing date `today`), `eff_end_dt = "9999-12-31"`. -/
def mkNewVersion (newCols : List String) (today : String) (r : Row) : Row :=
  setCell (setCell (setCell (projectRow newCols r) "current_flag" "1")
      "eff_start_dt" today) "eff_end_dt" SENTINEL

/-- One expiration row of `scd_type_2`: the merged record projected to the
surrogate-key column, then `current_flag = 0`, `eff_end_dt = datetime.now().date()`. -/
def mkExpire (sk : String) (today : String) (r : Row) : Row :=
  setCell (setCell (projectRow [sk] r) "current_flag" "0") "eff_end_dt" today

/-- The merged frame of `scd_type_2`
(`pd.merge(new_df, existing_df, on=join_keys, how="left", indicator=True)`). -/
def scdMerged (newF existF : Frame) (keys : List String) : List (Row × Option Row) :=
  leftMerge newF.rows existF.rows keys

/-- `scd_type_2` computes `new_hash` over `compare_cols` and `old_hash` over
their `_old`-suffixed counterparts; `create_hash` raises KeyError unless both
column lists exist in the merged frame.  This is the no-KeyError guard. -/
def scdGuard (newF existF : Frame) (keys cmp : List String) : Bool :=
  hashOk cmp (mergedCols newF.cols existF.cols keys) &&
    hashOk (cmp.map (fun c => c ++ "_old")) (mergedCols newF.cols existF.cols keys)

/-- `merged[merged["_merge"] == "left_only"]`: the records with a new business key. -/
def leftOnlyRecs (newF existF : Frame) (keys : List String) : List (Row × Option Row) :=
  (scdMerged newF existF keys).filter (fun m => m.2.isNone)

/-- `existing_matches = merged[merged["_merge"] == "both"]`. -/
def bothRecs (newF existF : Frame) (keys : List String) : List (Row × Option Row) :=
  (scdMerged newF existF keys).filter (fun m => m.2.isSome)

/-- `changed_rows = existing_matches[new_hash != old_hash]`. -/
def changedRecs (newF existF : Frame) (keys cmp : List String) :
    List (Row × Option Row) :=
  (bothRecs newF existF keys).filter (isChanged newF.cols keys cmp)

/-- The matched records whose hashes agree (classified unchanged: they feed
neither inserts nor updates). -/
def unchangedRecs (newF existF : Frame) (keys cmp : List String) :
    List (Row × Option Row) :=
  (bothRecs newF existF keys).filter (fun m => !(isChanged newF.cols keys cmp m))

/-- `all_inserts = pd.concat([new_inserts, inserts_from_updates])`: one fresh
current version per left-only record and per changed record. -/
def scdInserts (newF existF : Frame) (keys cmp : List String) (today : String) :
    List Row :=
  (leftOnlyRecs newF existF keys).map
      (fun m => mkNewVersion newF.cols today (mergedRow newF.cols keys m))
    ++ (changedRecs newF existF keys cmp).map
      (fun m => mkNewVersion newF.cols today (mergedRow newF.cols keys m))

/-- `updates`: one expiration row per changed record, carrying the matched old
row's `customer_sk` — but only when the existing frame has that column; when it
does not, `scd_type_2` merely logs a warning and returns no updates at all. -/
def scdUpdates (newF existF : Frame) (keys cmp : List String) (today : String) :
    List Row :=
  if existF.cols.contains "customer_sk" then
    if (changedRecs newF existF keys cmp).isEmpty then []
    else (changedRecs newF existF keys cmp).map
      (fun m => mkExpire "customer_sk" today (mergedRow newF.cols keys m))
  else []

/-- The classification implicit in `scd_type_2`: the merged records split into
left-only (new business keys), changed (key present, hashes differ) and
unchanged (key present, hashes equal).  Errors exactly when the hash
computation of `scd_type_2` raises KeyError. -/
def scd_classify (newF existF : Frame) (keys cmp : List String) :
    Except String (List (Row × Option Row) × List (Row × Option Row) ×
      List (Row × Option Row)) :=
  if scdGuard newF existF keys cmp then
    .ok (leftOnlyRecs newF existF keys, changedRecs newF existF keys cmp,
         unchangedRecs newF existF keys cmp)
  else .error "KeyError"

/-- `Transformer.scd_type_2(new_df, existing_df, join_keys, compare_cols)`
(src/transformation.py).  Returns `(records_to_insert, records_to_update)`:
inserts are the left-only records plus the changed records, each as a fresh
current version stamped with the processing date `today`
(`datetime.now().date()`); updates expire the matched old row of each changed
record via its `customer_sk` when that column exists in the existing frame.
A KeyError from the hash computation propagates out of the `try` block: the
whole call fails, no partial result is returned. -/
def scd_type_2 (newF existF : Frame) (keys cmp : List String) (today : String) :
    Except String (List Row × List Row) :=
  if scdGuard newF existF keys cmp then
    .ok (scdInserts newF existF keys cmp today, scdUpdates newF existF keys cmp today)
  else .error "KeyError"

/-- First-load branch of the customer-dimension load (src/main.py, the
`existing_cust.empty` case): every incoming row becomes an insert with
`current_flag = 1`, `eff_start_dt` = the row's own `effective_start_dt`
(falling back to 1900-01-01 when that cell is missing or unparseable) and
`eff_end_dt = "9999-12-31"`. -/
def firstLoadInsert (r : Row) : Row :=
  setCell (setCell (setCell r "current_flag" "1")
      "eff_start_dt" (cellStr (getCell r "effective_start_dt") |>
        (fun s => if s == "nan" then "1900-01-01" else s)))
    "eff_end_dt" SENTINEL

/-- The current-rows snapshot after the plan of one run is committed
(src/main.py, steps 4 and 5 of the dimension load): rows whose surrogate key is
named by an update row get `current_flag = 0` and so vanish from the next
`WHERE current_flag = 1` fetch; each insert is appended with a store-assigned
surrogate key.  The fetch column list is unchanged. -/
def applyPlan (existF : Frame) (inserts updates : List Row)
    (skOf : Nat → String) : Frame :=
  let expired := updates.filterMap (fun u => getCell u "customer_sk")
  { cols := existF.cols,
    rows := existF.rows.filter (fun e =>
        match getCell e "customer_sk" with
        | some s => !(expired.contains s)
        | none => true)
      ++ inserts.enum.map (fun p => setCell p.2 "customer_sk" (skOf p.1)) }

/-!
Temporal resolver (src/main.py, step 7.6): the pipeline left-merges the fact
rows with the full customer-dimension history on `customer_id`, coerces the
dates (`9999-12-31` fails `pd.to_datetime(..., errors="coerce")` and the
resulting NaT is filled with `pd.Timestamp.max`), and keeps exactly the merged
rows satisfying `eff_start_dt <= txn_date <= eff_end_dt`.  A fact whose key has
no dimension row survives the merge with NaN dimension cells and then fails the
mask; a fact with NaT `txn_date` fails the mask as well: both are dropped.
-/

/-- Stand-in for `pd.Timestamp.max` (2262-04-11) in `YYYYMMDD` encoding; the
sentinel end date is replaced by it before the window comparison, so it
compares greater than any real date. -/
def TS_MAX : Nat := 22620411

/-- One fact row after staging: its business key and coerced event timestamp
(`none` = NaT).  Measures play no role in resolution. -/
structure FactRow where
  customer_id : String
  txn_date : Option Nat
deriving DecidableEq, Repr

/-- One customer-dimension version as fetched for resolution:
`SELECT customer_sk, customer_id, eff_start_dt, eff_end_dt FROM dim_customer`.
`eff_end_dt = none` is the coerced sentinel (or an unparseable date), filled
with `TS_MAX` before comparing. -/
structure CustVersion where
  customer_sk : Nat
  customer_id : String
  eff_start_dt : Option Nat
  eff_end_dt : Option Nat
deriving DecidableEq, Repr

/-- The row mask `(txn_date >= eff_start_dt) & (txn_date <= eff_end_dt)` after
the end date was filled with `pd.Timestamp.max`; any comparison against NaT is
false in pandas. -/
def inWindow (t s e : Option Nat) : Bool :=
  match t, s with
  | some tv, some sv => decide (sv ≤ tv) && decide (tv ≤ e.getD TS_MAX)
  | _, _ => false

/-- The merge-then-mask predicate: key equality plus the validity window. -/
def custMatch (f : FactRow) (d : CustVersion) : Bool :=
  d.customer_id == f.customer_id && inWindow f.txn_date d.eff_start_dt d.eff_end_dt

/-- The dimension versions a fact resolves to. -/
def custMatches (dims : List CustVersion) (f : FactRow) : List CustVersion :=
  dims.filter (custMatch f)

/-- `fact_data = df_merged[mask]`: the resolved output, one row per fact and
matching version.  A fact with no matching version contributes nothing (its
merged row fails the mask); a fact with several matching versions contributes
one output row per match. -/
def resolveCustomerSK (facts : List FactRow) (dims : List CustVersion) :
    List (FactRow × CustVersion) :=
  facts.flatMap (fun f => (custMatches dims f).map (fun d => (f, d)))

/-- The quantity the pipeline reports in its warning when rows were lost:
`len(df) - len(fact_data)`. -/
def droppedCount (facts : List FactRow) (dims : List CustVersion) : Nat :=
  facts.length - (resolveCustomerSK facts dims).length

/-! ### Concrete fixtures used by witnesses and counterexamples -/

/-- Incoming frame: one changed customer (C1 renamed to Ana Maria). -/
def newFrameB : Frame :=
  { cols := ["customer_id", "customer_name"],
    rows := [[("customer_id", "C1"), ("customer_name", "Ana Maria")]] }

/-- Existing current snapshot: C1 named Ana, surrogate key 1. -/
def exFrameB : Frame :=
  { cols := ["customer_sk", "customer_id", "customer_name"],
    rows := [[("customer_sk", "1"), ("customer_id", "C1"), ("customer_name", "Ana")]] }

/-- Incoming frame with two rows: one changed customer and one new customer. -/
def newFrameA : Frame :=
  { cols := ["customer_id", "customer_name", "customer_segment"],
    rows := [[("customer_id", "C1"), ("customer_name", "Ana Maria"),
              ("customer_segment", "Gold")],
             [("customer_id", "C2"), ("customer_name", "Bob"),
              ("customer_segment", "Silver")]] }

/-- Existing current snapshot matching `newFrameA`: only C1 present. -/
def exFrameA : Frame :=
  { cols := ["customer_sk", "customer_id", "customer_name", "customer_segment"],
    rows := [[("customer_sk", "1"), ("customer_id", "C1"),
              ("customer_name", "Ana"), ("customer_segment", "Gold")]] }

/-- Incoming row whose tracked values differ from the current version but whose
string concatenation collides with it: ("ab", "c") versus ("a", "bc"). -/
def newFrameColl : Frame :=
  { cols := ["customer_id", "customer_name", "customer_segment"],
    rows := [[("customer_id", "C1"), ("customer_name", "ab"),
              ("customer_segment", "c")]] }

/-- Existing current snapshot for the collision scenario. -/
def exFrameColl : Frame :=
  { cols := ["customer_sk", "customer_id", "customer_name", "customer_segment"],
    rows := [[("customer_sk", "1"), ("customer_id", "C1"),
              ("customer_name", "a"), ("customer_segment", "bc")]] }

/-- Incoming frame whose schema misses the tracked column `marital_status`
for every row (C2 is an entirely unaffected, well-formed row). -/
def newFrameMiss : Frame :=
  { cols := ["customer_id", "customer_name"],
    rows := [[("customer_id", "C1"), ("customer_name", "Ana")],
             [("customer_id", "C2"), ("customer_name", "Bob")]] }

/-- Existing current snapshot that lacks the surrogate-key column. -/
def exFrameNoSk : Frame :=
  { cols := ["customer_id", "customer_name", "customer_segment"],
    rows := [[("customer_id", "C1"), ("customer_name", "Ana"),
              ("customer_segment", "Gold")]] }

/-- Incoming frame identical in tracked values to `exFrameA`: C1 unchanged. -/
def newFrameU : Frame :=
  { cols := ["customer_id", "customer_name", "customer_segment"],
    rows := [[("customer_id", "C1"), ("customer_name", "Ana"),
              ("customer_segment", "Gold")]] }

/-! ### Cell-access lemmas -/

theorem find?_filter_of_imp {α : Type} (l : List α) (p q : α → Bool)
    (h : ∀ a, p a = true → q a = true) :
    List.find? p (l.filter q) = List.find? p l := by
  induction l with
  | nil => rfl
  | cons a l ih =>
    by_cases hq : q a = true
    · rw [List.filter_cons_of_pos hq]
      rw [List.find?_cons, List.find?_cons]
      cases hp : p a
      · exact ih
      · rfl
    · have hp : p a = false := by
        cases hpa : p a
        · rfl
        · exact absurd (h a hpa) hq
      rw [List.filter_cons_of_neg (by simp [hq])]
      rw [ih, List.find?_cons, hp]

theorem getCell_append (r s : Row) (c : String) :
    getCell (r ++ s) c = (getCell r c).or (getCell s c) := by
  unfold getCell
  rw [List.find?_append]
  cases List.find? (fun p => p.1 == c) r <;> simp

theorem getCell_eq_none (r : Row) (c : String) (h : ∀ p ∈ r, p.1 ≠ c) :
    getCell r c = none := by
  unfold getCell
  rw [List.find?_eq_none.mpr]
  · rfl
  · intro p hp
    simpa using h p hp

theorem getCell_setCell_same (r : Row) (c v : String) :
    getCell (setCell r c v) c = some v := by
  unfold setCell
  rw [getCell_append, getCell_eq_none]
  · simp [getCell]
  · intro p hp
    have := List.mem_filter.mp hp
    simpa using this.2

theorem getCell_setCell_ne (r : Row) (c v c2 : String) (h : c2 ≠ c) :
    getCell (setCell r c v) c2 = getCell r c2 := by
  unfold setCell
  rw [getCell_append]
  have h1 : getCell [(c, v)] c2 = none := by
    apply getCell_eq_none
    intro p hp
    simp at hp
    subst hp
    exact Ne.symm h
  rw [h1]
  have h2 : getCell (r.filter (fun p => !(p.1 == c))) c2 = getCell r c2 := by
    unfold getCell
    rw [find?_filter_of_imp]
    intro a ha
    have : a.1 = c2 := by simpa using ha
    simp [this, h]
  rw [h2]
  cases getCell r c2 <;> rfl

theorem projectRow_cons (d : String) (cols : List String) (r : Row) :
    projectRow (d :: cols) r =
      match getCell r d with
      | none => projectRow cols r
      | some v => (d, v) :: projectRow cols r := by
  simp only [projectRow, List.filterMap_cons]
  cases getCell r d <;> rfl

theorem getCell_projectRow (cols : List String) (r : Row) (c : String) :
    getCell (projectRow cols r) c = if cols.contains c then getCell r c else none := by
  induction cols with
  | nil => simp [projectRow, getCell]
  | cons d cols ih =>
    rw [projectRow_cons]
    by_cases hc : d = c
    · subst hc
      have hcont : (d :: cols).contains d = true := by simp
      rw [if_pos hcont]
      cases hd : getCell r d with
      | none =>
        rw [ih, hd]
        split <;> rfl
      | some v =>
        simp [getCell, List.find?_cons]
    · have hbe : (c == d) = false := by simp [Ne.symm hc]
      have hcont : (d :: cols).contains c = cols.contains c := by
        rw [List.contains_cons, hbe, Bool.false_or]
      rw [hcont]
      cases hd : getCell r d with
      | none => exact ih
      | some v =>
        have : getCell ((d, v) :: projectRow cols r) c = getCell (projectRow cols r) c := by
          simp [getCell, List.find?_cons, show ((d, v).1 == c) = false from by simp [hc]]
        rw [this, ih]

theorem string_append_cancel {a b s : String} (h : a ++ s = b ++ s) : a = b := by
  apply String.ext
  have h2 := congrArg String.data h
  rw [String.data_append, String.data_append] at h2
  exact List.append_cancel_right h2

theorem old_suffix_ne_self (c : String) : c ++ "_old" ≠ c := by
  intro h
  have h2 := congrArg String.length h
  rw [String.length_append] at h2
  have h4 : "_old".length = 4 := rfl
  omega

theorem renameOld_cons (newCols keys : List String) (p : String × String) (e : Row) :
    renameOld newCols keys (p :: e) =
      if keys.contains p.1 then renameOld newCols keys e
      else (oldColName newCols keys p.1, p.2) :: renameOld newCols keys e := by
  unfold renameOld
  rw [List.filter_cons]
  cases hk : keys.contains p.1
  · simp
  · simp

/-- Lookup in a renamed existing row: when `src` is the only cell name of `e`
that the suffix rule sends to `tgt`, the renamed row holds exactly the `src`
cells of `e` under the name `tgt`. -/
theorem getCell_renameOld (newCols keys : List String) (e : Row) (src tgt : String)
    (hsrc : oldColName newCols keys src = tgt) (hkey : keys.contains src = false)
    (huniq : ∀ p ∈ e, keys.contains p.1 = false →
      oldColName newCols keys p.1 = tgt → p.1 = src) :
    getCell (renameOld newCols keys e) tgt = getCell e src := by
  induction e with
  | nil => rfl
  | cons p e ih =>
    have huniq2 : ∀ q ∈ e, keys.contains q.1 = false →
        oldColName newCols keys q.1 = tgt → q.1 = src :=
      fun q hq => huniq q (List.mem_cons_of_mem _ hq)
    rw [renameOld_cons]
    by_cases hk : keys.contains p.1 = true
    · rw [if_pos hk]
      have hps : p.1 ≠ src := by
        intro hh
        rw [hh, hkey] at hk
        exact Bool.false_ne_true hk
      have : getCell (p :: e) src = getCell e src := by
        simp [getCell, List.find?_cons, show (p.1 == src) = false from by simp [hps]]
      rw [this]
      exact ih huniq2
    · rw [if_neg hk]
      by_cases hps : p.1 = src
      · have htgt : oldColName newCols keys p.1 = tgt := by rw [hps, hsrc]
        have hb1 : (oldColName newCols keys p.1 == tgt) = true := by simp [htgt]
        have hb2 : (p.1 == src) = true := by simp [hps]
        simp [getCell, List.find?_cons, hb1, hb2]
      · have htgt : oldColName newCols keys p.1 ≠ tgt := by
          intro hh
          exact hps (huniq p (List.mem_cons_self p e) (by simpa using hk) hh)
        have h1 : getCell ((oldColName newCols keys p.1, p.2) ::
            renameOld newCols keys e) tgt = getCell (renameOld newCols keys e) tgt := by
          simp [getCell, List.find?_cons, show (oldColName newCols keys p.1 == tgt) = false
            from by simp [htgt]]
        have h2 : getCell (p :: e) src = getCell e src := by
          simp [getCell, List.find?_cons, show (p.1 == src) = false from by simp [hps]]
        rw [h1, h2]
        exact ih huniq2

/-- Lookup of an unsuffixed column in a merged record falls to the incoming
row when no cell of the matched existing row is renamed onto it. -/
theorem getCell_mergedRow_left (newCols keys : List String) (r : Row) (o : Option Row)
    (c : String)
    (h : ∀ e, o = some e → ∀ p ∈ e, keys.contains p.1 = false →
      oldColName newCols keys p.1 ≠ c) :
    getCell (mergedRow newCols keys (r, o)) c = getCell r c := by
  cases o with
  | none => simp [mergedRow]
  | some e =>
    show getCell (r ++ renameOld newCols keys e) c = getCell r c
    rw [getCell_append]
    have hnone : getCell (renameOld newCols keys e) c = none := by
      apply getCell_eq_none
      intro q hq
      rcases List.mem_map.mp hq with ⟨p, hp, hpq⟩
      have hpf := List.mem_filter.mp hp
      have hkf : keys.contains p.1 = false := by simpa using hpf.2
      have := h e rfl p hpf.1 hkf
      rw [← hpq] at *
      exact this
    rw [hnone]
    cases getCell r c <;> rfl

/-- Lookup of a suffixed or key-free existing column in a merged record falls
to the matched existing row when the incoming row has no cell named `tgt`. -/
theorem getCell_mergedRow_right (newCols keys : List String) (r e : Row)
    (src tgt : String)
    (hr : ∀ p ∈ r, p.1 ≠ tgt)
    (hsrc : oldColName newCols keys src = tgt) (hkey : keys.contains src = false)
    (huniq : ∀ p ∈ e, keys.contains p.1 = false →
      oldColName newCols keys p.1 = tgt → p.1 = src) :
    getCell (mergedRow newCols keys (r, some e)) tgt = getCell e src := by
  show getCell (r ++ renameOld newCols keys e) tgt = getCell e src
  rw [getCell_append, getCell_eq_none r tgt hr]
  rw [Option.none_or]
  exact getCell_renameOld newCols keys e src tgt hsrc hkey huniq

/-! ### Cells of the rows produced by the Version Writer -/

theorem mkNewVersion_end (nc : List String) (today : String) (r : Row) :
    getCell (mkNewVersion nc today r) "eff_end_dt" = some SENTINEL :=
  getCell_setCell_same _ _ _

theorem mkNewVersion_start (nc : List String) (today : String) (r : Row) :
    getCell (mkNewVersion nc today r) "eff_start_dt" = some today := by
  unfold mkNewVersion
  rw [getCell_setCell_ne _ _ _ _ (by decide)]
  exact getCell_setCell_same _ _ _

theorem mkNewVersion_flag (nc : List String) (today : String) (r : Row) :
    getCell (mkNewVersion nc today r) "current_flag" = some "1" := by
  unfold mkNewVersion
  rw [getCell_setCell_ne _ _ _ _ (by decide), getCell_setCell_ne _ _ _ _ (by decide)]
  exact getCell_setCell_same _ _ _

theorem mkNewVersion_other (nc : List String) (today : String) (r : Row) (c : String)
    (h1 : c ≠ "current_flag") (h2 : c ≠ "eff_start_dt") (h3 : c ≠ "eff_end_dt") :
    getCell (mkNewVersion nc today r) c = if nc.contains c then getCell r c else none := by
  unfold mkNewVersion
  rw [getCell_setCell_ne _ _ _ _ h3, getCell_setCell_ne _ _ _ _ h2,
      getCell_setCell_ne _ _ _ _ h1]
  exact getCell_projectRow _ _ _

theorem mkExpire_end (sk today : String) (r : Row) :
    getCell (mkExpire sk today r) "eff_end_dt" = some today :=
  getCell_setCell_same _ _ _

theorem mkExpire_flag (sk today : String) (r : Row) :
    getCell (mkExpire sk today r) "current_flag" = some "0" := by
  unfold mkExpire
  rw [getCell_setCell_ne _ _ _ _ (by decide)]
  exact getCell_setCell_same _ _ _

theorem mkExpire_sk (today : String) (r : Row) :
    getCell (mkExpire "customer_sk" today r) "customer_sk"
      = getCell r "customer_sk" := by
  unfold mkExpire
  rw [getCell_setCell_ne _ _ _ _ (by decide), getCell_setCell_ne _ _ _ _ (by decide)]
  rw [getCell_projectRow]
  simp

/-! ### Structure of the left merge -/

theorem leftMerge_cons (r : Row) (rs exist : List Row) (keys : List String) :
    leftMerge (r :: rs) exist keys =
      (match matchesOf keys exist r with
       | [] => [(r, none)]
       | es => es.map (fun e => (r, some e))) ++ leftMerge rs exist keys := by
  unfold leftMerge
  rw [List.flatMap_cons]

theorem leftMerge_eq_map (newRows exist : List Row) (keys : List String)
    (h : ∀ r ∈ newRows, (matchesOf keys exist r).length ≤ 1) :
    leftMerge newRows exist keys
      = newRows.map (fun r => (r, (matchesOf keys exist r).head?)) := by
  induction newRows with
  | nil => rfl
  | cons r rs ih =>
    rw [leftMerge_cons, List.map_cons,
        ih (fun x hx => h x (List.mem_cons_of_mem _ hx))]
    cases hm : matchesOf keys exist r with
    | nil => rfl
    | cons e es =>
      have h1 := h r (List.mem_cons_self r rs)
      rw [hm] at h1
      have hes : es = [] := by
        cases es with
        | nil => rfl
        | cons a as => simp [List.length_cons] at h1
      subst hes
      rfl

theorem of_mem_leftMerge {newRows exist : List Row} {keys : List String}
    {m : Row × Option Row} (h : m ∈ leftMerge newRows exist keys) :
    ∃ r ∈ newRows, (matchesOf keys exist r = [] ∧ m = (r, none)) ∨
      ∃ x ∈ matchesOf keys exist r, m = (r, some x) := by
  rcases List.mem_flatMap.mp h with ⟨r, hr, hm⟩
  refine ⟨r, hr, ?_⟩
  cases hx : matchesOf keys exist r with
  | nil =>
    rw [hx] at hm
    simp at hm
    exact Or.inl ⟨rfl, hm⟩
  | cons a as =>
    rw [hx] at hm
    simp only [List.mem_map] at hm
    rcases hm with ⟨x, hxmem, hmx⟩
    refine Or.inr ⟨x, ?_, hmx.symm⟩
    simpa [hx] using hxmem

theorem mem_leftMerge_of_match {newRows exist : List Row} {keys : List String}
    {r : Row} {x : Row} (hr : r ∈ newRows) (hx : x ∈ matchesOf keys exist r) :
    (r, some x) ∈ leftMerge newRows exist keys := by
  apply List.mem_flatMap.mpr
  refine ⟨r, hr, ?_⟩
  cases hm : matchesOf keys exist r with
  | nil => rw [hm] at hx; exact absurd hx (List.not_mem_nil x)
  | cons a as =>
    rw [hm] at hx
    exact List.mem_map.mpr ⟨x, hx, rfl⟩

/-! ### Concatenation (`create_hash`) lemmas -/

theorem rowConcat_congr (cols : List String) (r s : Row)
    (h : ∀ c ∈ cols, cellStr (getCell r c) = cellStr (getCell s c)) :
    rowConcat cols r = rowConcat cols s := by
  unfold rowConcat
  congr 1
  exact List.map_congr_left h

theorem rowConcat_old (cols : List String) (r : Row) :
    rowConcat (cols.map (fun c => c ++ "_old")) r
      = String.join (cols.map (fun c => cellStr (getCell r (c ++ "_old")))) := by
  unfold rowConcat
  rw [List.map_map]
  rfl

/-- When every compare column routes to the incoming row on the unsuffixed side
and to the matched existing row on the suffixed side, and the stringified
values agree columnwise, the change test of `scd_type_2` is negative. -/
theorem isChanged_eq_false (newCols keys cmp : List String) (r e : Row)
    (hleft : ∀ c ∈ cmp, getCell (mergedRow newCols keys (r, some e)) c = getCell r c)
    (hright : ∀ c ∈ cmp,
      getCell (mergedRow newCols keys (r, some e)) (c ++ "_old") = getCell e c)
    (hvals : ∀ c ∈ cmp, cellStr (getCell r c) = cellStr (getCell e c)) :
    isChanged newCols keys cmp (r, some e) = false := by
  unfold isChanged
  rw [rowConcat_old]
  have h1 : rowConcat cmp (mergedRow newCols keys (r, some e))
      = String.join (cmp.map (fun c => cellStr (getCell e c))) := by
    unfold rowConcat
    congr 1
    refine List.map_congr_left (fun c hc => ?_)
    rw [hleft c hc]
    exact hvals c hc
  have h2 : String.join (cmp.map (fun c =>
        cellStr (getCell (mergedRow newCols keys (r, some e)) (c ++ "_old"))))
      = String.join (cmp.map (fun c => cellStr (getCell e c))) := by
    congr 1
    refine List.map_congr_left (fun c hc => ?_)
    rw [hright c hc]
  rw [h1, h2]
  exact bne_self_eq_false _

/-- The complementary partition of the match indicator. -/
theorem filter_isNone_isSome_perm (l : List (Row × Option Row)) :
    (l.filter (fun m => m.2.isNone) ++ l.filter (fun m => m.2.isSome)).Perm l := by
  have hp := List.filter_append_perm (fun m => m.2.isNone) l
  have he : l.filter (fun m => !(m.2.isNone)) = l.filter (fun m => m.2.isSome) :=
    List.filter_congr (fun m _ => by cases m.2 <;> rfl)
  rw [he] at hp
  exact hp

/-! ### Claims about the temporal resolver -/

/-- C1: for every fact record whose event timestamp falls within exactly one
dimension version validity interval (valid_from and valid_to both inclusive,
the open-ended sentinel comparing greater than any real date, as `custMatch`
encodes), the resolver output pairs that fact with exactly that version, hence
assigns that version surrogate key to the fact. -/
theorem C1_temporal_resolution_unique (facts : List FactRow) (dims : List CustVersion)
    (f : FactRow) (d : CustVersion) (hf : f ∈ facts)
    (hd : custMatches dims f = [d]) :
    (f, d) ∈ resolveCustomerSK facts dims ∧
      ∀ d2 : CustVersion, (f, d2) ∈ resolveCustomerSK facts dims → d2 = d := by
  constructor
  · unfold resolveCustomerSK
    apply List.mem_flatMap.mpr
    refine ⟨f, hf, ?_⟩
    rw [hd]
    simp
  · intro d2 h2
    unfold resolveCustomerSK at h2
    rcases List.mem_flatMap.mp h2 with ⟨g, hg, hmem⟩
    rcases List.mem_map.mp hmem with ⟨d3, hd3, heq⟩
    have hgf : g = f := congrArg Prod.fst heq
    have hdd : d3 = d2 := congrArg Prod.snd heq
    subst hgf
    rw [hd] at hd3
    rw [← hdd]
    simpa using hd3

/-- C1 witness: the boundary scenario of the spec - two versions of C1 meeting
at 2024-05-31 / 2024-06-01; a fact dated exactly on the valid_to of version 1
resolves to version 1. -/
theorem C1_witness :
    ((⟨"C1", some 20240531⟩ : FactRow),
     (⟨1, "C1", some 20230101, some 20240531⟩ : CustVersion))
      ∈ resolveCustomerSK [⟨"C1", some 20240531⟩]
        [⟨1, "C1", some 20230101, some 20240531⟩, ⟨2, "C1", some 20240601, none⟩] :=
  (C1_temporal_resolution_unique _ _ _ _ (by decide) (by decide)).1

/-- C2 counterexample: a fact whose business key matches no dimension version
is dropped from the resolved output entirely - the output is empty, the fact is
not emitted with a null reference as the claim states. -/
theorem C2_counterexample :
    custMatches [(⟨1, "C1", some 20230101, some 20240531⟩ : CustVersion),
        ⟨2, "C1", some 20240601, none⟩] ⟨"C9", some 20240601⟩ = [] ∧
    resolveCustomerSK [(⟨"C9", some 20240601⟩ : FactRow)]
      [⟨1, "C1", some 20230101, some 20240531⟩, ⟨2, "C1", some 20240601, none⟩]
      = [] := by
  constructor
  · rfl
  · rfl

/-- C2 amended: a fact with zero matching versions contributes no row at all
to the resolved output (it is dropped, not emitted with a null reference; the
pipeline only logs a warning carrying `droppedCount`). -/
theorem C2_unmatched_fact_dropped (facts : List FactRow) (dims : List CustVersion)
    (f : FactRow) (h0 : custMatches dims f = []) :
    (resolveCustomerSK facts dims).all (fun p => !(decide (p.1 = f))) = true := by
  apply List.all_eq_true.mpr
  intro p hp
  rcases List.mem_flatMap.mp hp with ⟨g, hg, hmem⟩
  rcases List.mem_map.mp hmem with ⟨d3, hd3, heq⟩
  by_cases hgf : g = f
  · subst hgf
    rw [h0] at hd3
    exact absurd hd3 (List.not_mem_nil _)
  · rw [← heq]
    simp [hgf]

/-- C2 amended witness: with one resolvable and one unresolvable fact, no
output row carries the unresolvable fact. -/
theorem C2_witness :
    (resolveCustomerSK
        [(⟨"C1", some 20240531⟩ : FactRow), ⟨"C9", some 20240601⟩]
        [⟨1, "C1", some 20230101, some 20240531⟩, ⟨2, "C1", some 20240601, none⟩]).all
      (fun p => !(decide (p.1 = (⟨"C9", some 20240601⟩ : FactRow)))) = true :=
  C2_unmatched_fact_dropped _ _ _ (by decide)

/-- C7 counterexample: a fact whose timestamp lies inside two overlapping
version intervals is resolved twice - one output row per matching version -
and no OverlapError (or any failure) is raised. -/
theorem C7_counterexample :
    resolveCustomerSK [(⟨"C1", some 20240615⟩ : FactRow)]
      [⟨1, "C1", some 20230101, some 20240630⟩, ⟨2, "C1", some 20240601, none⟩]
      = [(⟨"C1", some 20240615⟩, ⟨1, "C1", some 20230101, some 20240630⟩),
         (⟨"C1", some 20240615⟩, ⟨2, "C1", some 20240601, none⟩)] := rfl

/-- C7 amended: resolution is total - it never fails; it emits exactly one
output row per (fact, matching version) pair, so a fact matching several
versions is duplicated rather than rejected. -/
theorem C7_row_per_match (facts : List FactRow) (dims : List CustVersion) :
    (resolveCustomerSK facts dims).length
      = (facts.map (fun f => (custMatches dims f).length)).sum := by
  unfold resolveCustomerSK
  rw [List.length_flatMap]
  congr 1
  refine List.map_congr_left (fun f hf => ?_)
  simp [Function.comp]

theorem contains_eq_false_of_not_mem {l : List String} {a : String} (h : a ∉ l) :
    l.contains a = false := by
  cases hc : l.contains a
  · rfl
  · exact absurd (List.elem_iff.mp hc) h

/-! ### Claims about the Version Writer -/

/-- C3 counterexample: on the spec scenario (current C1 "Ana" with surrogate
key 1, incoming "Ana Maria", processed on 2024-06-01) the single expiration
row carries `eff_end_dt = 2024-06-01` - the processing date itself, not
2024-05-31, the day before the new valid_from; and no check ever raises a
TemporalOrderError (`scd_type_2` returns `.ok`, never an ordering failure). -/
theorem C3_counterexample :
    scd_type_2 newFrameB exFrameB ["customer_id"] ["customer_name"] "2024-06-01"
      = .ok ([[("customer_id", "C1"), ("customer_name", "Ana Maria"),
               ("current_flag", "1"), ("eff_start_dt", "2024-06-01"),
               ("eff_end_dt", "9999-12-31")]],
             [[("customer_sk", "1"), ("current_flag", "0"),
               ("eff_end_dt", "2024-06-01")]])
    ∧ ("2024-06-01" : String) ≠ "2024-05-31" := by
  constructor
  · rfl
  · decide

/-- C3 amended: when the existing frame has the surrogate-key column,
`scd_type_2` emits exactly one expiration row per changed record, and every
expiration row sets `eff_end_dt` to the processing date itself (the same day
as the new version valid_from, so the expired and the new interval overlap on
that day) and `current_flag` to 0; no inverted-interval check exists. -/
theorem C3_expiration_same_day (newF existF : Frame) (keys cmp : List String)
    (today : String) (ins upd : List Row)
    (hsk : existF.cols.contains "customer_sk" = true)
    (h : scd_type_2 newF existF keys cmp today = .ok (ins, upd)) :
    upd.length = (changedRecs newF existF keys cmp).length ∧
      upd.all (fun u => decide (getCell u "eff_end_dt" = some today)
        && decide (getCell u "current_flag" = some "0")) = true := by
  by_cases hg : scdGuard newF existF keys cmp = true
  · simp only [scd_type_2, hg, if_true, Except.ok.injEq, Prod.mk.injEq] at h
    obtain ⟨hins, hupd⟩ := h
    rw [← hupd]
    unfold scdUpdates
    rw [if_pos hsk]
    by_cases hemp : (changedRecs newF existF keys cmp).isEmpty = true
    · rw [if_pos hemp, List.isEmpty_iff.mp hemp]
      exact ⟨rfl, rfl⟩
    · rw [if_neg hemp]
      constructor
      · exact List.length_map _ _
      · apply List.all_eq_true.mpr
        intro u hu
        rcases List.mem_map.mp hu with ⟨m, hm, hmu⟩
        rw [← hmu]
        simp [mkExpire_end, mkExpire_flag]
  · simp only [scd_type_2, Bool.not_eq_true] at h
    rw [Bool.not_eq_true] at hg
    rw [hg] at h
    simp at h

/-- C3 witness: the amended statement instantiated on the spec scenario. -/
theorem C3_witness :
    ([[("customer_sk", "1"), ("current_flag", "0"),
       ("eff_end_dt", "2024-06-01")]] : List Row).length
        = (changedRecs newFrameB exFrameB ["customer_id"] ["customer_name"]).length ∧
      ([[("customer_sk", "1"), ("current_flag", "0"),
         ("eff_end_dt", "2024-06-01")]] : List Row).all
        (fun u => decide (getCell u "eff_end_dt" = some "2024-06-01")
          && decide (getCell u "current_flag" = some "0")) = true :=
  C3_expiration_same_day newFrameB exFrameB ["customer_id"] ["customer_name"]
    "2024-06-01" _ _ (by rfl) (by rfl)

/-- C6 counterexample: in the first-load branch of the customer-dimension load,
an incoming row with no `effective_start_dt` cell gets
`eff_start_dt = 1900-01-01` - a fixed fallback, not the processing date (the
run shown here processes on 2024-06-01) - and the insert carries no surrogate
key at all (the store assigns it); there is no caller-supplied effective date
anywhere in the pipeline. -/
theorem C6_counterexample :
    getCell (firstLoadInsert [("customer_id", "C1"), ("customer_name", "Ana")])
        "eff_start_dt" = some "1900-01-01"
    ∧ getCell (firstLoadInsert [("customer_id", "C1"), ("customer_name", "Ana")])
        "customer_sk" = none
    ∧ ("1900-01-01" : String) ≠ "2024-06-01" := by
  refine ⟨rfl, rfl, ?_⟩
  decide

/-- C6 amended: in the `scd_type_2` path every insert row (one per left-only
record and one per changed record) has `eff_start_dt` = the current processing
date (there is no caller-supplied effective date), `eff_end_dt` = the
open-ended sentinel, `current_flag = 1`, and carries no surrogate key (the
store assigns keys on insert); in the first-load path `eff_start_dt` instead
comes from the row itself, defaulting to 1900-01-01. -/
theorem C6_new_version_shape (newF existF : Frame) (keys cmp : List String)
    (today : String) (ins upd : List Row)
    (hsk : newF.cols.contains "customer_sk" = false)
    (h : scd_type_2 newF existF keys cmp today = .ok (ins, upd)) :
    ins.length = (leftOnlyRecs newF existF keys).length
        + (changedRecs newF existF keys cmp).length ∧
      ins.all (fun i => decide (getCell i "eff_start_dt" = some today)
        && decide (getCell i "eff_end_dt" = some SENTINEL)
        && decide (getCell i "current_flag" = some "1")
        && decide (getCell i "customer_sk" = none)) = true := by
  by_cases hg : scdGuard newF existF keys cmp = true
  · simp only [scd_type_2, hg, if_true, Except.ok.injEq, Prod.mk.injEq] at h
    obtain ⟨hins, hupd⟩ := h
    rw [← hins]
    constructor
    · unfold scdInserts
      rw [List.length_append, List.length_map, List.length_map]
    · apply List.all_eq_true.mpr
      intro i hi
      unfold scdInserts at hi
      have hmk : ∃ m : Row × Option Row, i = mkNewVersion newF.cols today
          (mergedRow newF.cols keys m) := by
        rcases List.mem_append.mp hi with hi1 | hi1
        · rcases List.mem_map.mp hi1 with ⟨m, hm, hmi⟩
          exact ⟨m, hmi.symm⟩
        · rcases List.mem_map.mp hi1 with ⟨m, hm, hmi⟩
          exact ⟨m, hmi.symm⟩
      rcases hmk with ⟨m, hmi⟩
      rw [hmi]
      have hskc : getCell (mkNewVersion newF.cols today (mergedRow newF.cols keys m))
          "customer_sk" = none := by
        rw [mkNewVersion_other _ _ _ _ (by decide) (by decide) (by decide), hsk]
        rfl
      simp [mkNewVersion_start, mkNewVersion_end, mkNewVersion_flag, hskc]
  · simp only [scd_type_2, Bool.not_eq_true] at h
    rw [Bool.not_eq_true] at hg
    rw [hg] at h
    simp at h

/-- C6 witness: the amended statement instantiated on a run with one new and
one changed customer, processed on 2024-06-01. -/
theorem C6_witness :
    ([[("customer_id", "C2"), ("customer_name", "Bob"),
       ("customer_segment", "Silver"), ("current_flag", "1"),
       ("eff_start_dt", "2024-06-01"), ("eff_end_dt", "9999-12-31")],
      [("customer_id", "C1"), ("customer_name", "Ana Maria"),
       ("customer_segment", "Gold"), ("current_flag", "1"),
       ("eff_start_dt", "2024-06-01"), ("eff_end_dt", "9999-12-31")]] : List Row).length
      = (leftOnlyRecs newFrameA exFrameA ["customer_id"]).length
        + (changedRecs newFrameA exFrameA ["customer_id"]
            ["customer_name", "customer_segment"]).length ∧
    ([[("customer_id", "C2"), ("customer_name", "Bob"),
       ("customer_segment", "Silver"), ("current_flag", "1"),
       ("eff_start_dt", "2024-06-01"), ("eff_end_dt", "9999-12-31")],
      [("customer_id", "C1"), ("customer_name", "Ana Maria"),
       ("customer_segment", "Gold"), ("current_flag", "1"),
       ("eff_start_dt", "2024-06-01"), ("eff_end_dt", "9999-12-31")]] : List Row).all
      (fun i => decide (getCell i "eff_start_dt" = some "2024-06-01")
        && decide (getCell i "eff_end_dt" = some SENTINEL)
        && decide (getCell i "current_flag" = some "1")
        && decide (getCell i "customer_sk" = none)) = true :=
  C6_new_version_shape newFrameA exFrameA ["customer_id"]
    ["customer_name", "customer_segment"] "2024-06-01" _ _ (by rfl) (by rfl)

/-- C10: when the existing frame lacks the surrogate-key column
(`customer_sk`), `scd_type_2` only logs a warning: the returned expiration
plan is empty while the insert plan still contains one fresh current version
(`current_flag = 1`) per left-only record and per changed record; committing
such a plan leaves every old current row in place and appends the new current
versions, so each changed business key ends up with two current versions and
no error is ever raised. -/
theorem C10_missing_sk_plan (newF existF : Frame) (keys cmp : List String)
    (today : String) (ins upd : List Row) (skOf : Nat → String)
    (hsk : existF.cols.contains "customer_sk" = false)
    (h : scd_type_2 newF existF keys cmp today = .ok (ins, upd)) :
    upd = [] ∧
    ins.length = (leftOnlyRecs newF existF keys).length
        + (changedRecs newF existF keys cmp).length ∧
    ins.all (fun i => decide (getCell i "current_flag" = some "1")) = true ∧
    (applyPlan existF ins upd skOf).rows
      = existF.rows ++ ins.enum.map (fun p => setCell p.2 "customer_sk" (skOf p.1)) := by
  by_cases hg : scdGuard newF existF keys cmp = true
  · simp only [scd_type_2, hg, if_true, Except.ok.injEq, Prod.mk.injEq] at h
    obtain ⟨hins, hupd⟩ := h
    have hupd0 : upd = [] := by
      rw [← hupd]
      unfold scdUpdates
      rw [if_neg (by rw [hsk]; exact Bool.false_ne_true)]
    refine ⟨hupd0, ?_, ?_, ?_⟩
    · rw [← hins]
      unfold scdInserts
      rw [List.length_append, List.length_map, List.length_map]
    · rw [← hins]
      apply List.all_eq_true.mpr
      intro i hi
      unfold scdInserts at hi
      have hmk : ∃ m : Row × Option Row, i = mkNewVersion newF.cols today
          (mergedRow newF.cols keys m) := by
        rcases List.mem_append.mp hi with hi1 | hi1
        · rcases List.mem_map.mp hi1 with ⟨m, hm, hmi⟩
          exact ⟨m, hmi.symm⟩
        · rcases List.mem_map.mp hi1 with ⟨m, hm, hmi⟩
          exact ⟨m, hmi.symm⟩
      rcases hmk with ⟨m, hmi⟩
      rw [hmi]
      simp [mkNewVersion_flag]
    · rw [hupd0]
      unfold applyPlan
      simp only [List.filterMap_nil]
      congr 1
      have : ∀ e : Row, (match getCell e "customer_sk" with
          | some s => !(List.contains ([] : List String) s)
          | none => true) = true := by
        intro e
        cases getCell e "customer_sk" <;> rfl
      calc existF.rows.filter _ = existF.rows.filter (fun _ => true) :=
            List.filter_congr (fun e _ => this e)
        _ = existF.rows := List.filter_true _
  · simp only [scd_type_2, Bool.not_eq_true] at h
    rw [Bool.not_eq_true] at hg
    rw [hg] at h
    simp at h

/-- C10 witness: one new and one changed customer against a snapshot without a
surrogate-key column - no expirations, two current inserts, old row kept. -/
theorem C10_witness :
    ([] : List Row) = [] ∧
    ([[("customer_id", "C2"), ("customer_name", "Bob"),
       ("customer_segment", "Silver"), ("current_flag", "1"),
       ("eff_start_dt", "2024-06-01"), ("eff_end_dt", "9999-12-31")],
      [("customer_id", "C1"), ("customer_name", "Ana Maria"),
       ("customer_segment", "Gold"), ("current_flag", "1"),
       ("eff_start_dt", "2024-06-01"), ("eff_end_dt", "9999-12-31")]] : List Row).length
      = (leftOnlyRecs newFrameA exFrameNoSk ["customer_id"]).length
        + (changedRecs newFrameA exFrameNoSk ["customer_id"]
            ["customer_name", "customer_segment"]).length ∧
    ([[("customer_id", "C2"), ("customer_name", "Bob"),
       ("customer_segment", "Silver"), ("current_flag", "1"),
       ("eff_start_dt", "2024-06-01"), ("eff_end_dt", "9999-12-31")],
      [("customer_id", "C1"), ("customer_name", "Ana Maria"),
       ("customer_segment", "Gold"), ("current_flag", "1"),
       ("eff_start_dt", "2024-06-01"), ("eff_end_dt", "9999-12-31")]] : List Row).all
      (fun i => decide (getCell i "current_flag" = some "1")) = true ∧
    (applyPlan exFrameNoSk
      [[("customer_id", "C2"), ("customer_name", "Bob"),
        ("customer_segment", "Silver"), ("current_flag", "1"),
        ("eff_start_dt", "2024-06-01"), ("eff_end_dt", "9999-12-31")],
       [("customer_id", "C1"), ("customer_name", "Ana Maria"),
        ("customer_segment", "Gold"), ("current_flag", "1"),
        ("eff_start_dt", "2024-06-01"), ("eff_end_dt", "9999-12-31")]]
      [] (fun i => toString (100 + i))).rows
      = exFrameNoSk.rows ++
        ([[("customer_id", "C2"), ("customer_name", "Bob"),
           ("customer_segment", "Silver"), ("current_flag", "1"),
           ("eff_start_dt", "2024-06-01"), ("eff_end_dt", "9999-12-31")],
          [("customer_id", "C1"), ("customer_name", "Ana Maria"),
           ("customer_segment", "Gold"), ("current_flag", "1"),
           ("eff_start_dt", "2024-06-01"), ("eff_end_dt", "9999-12-31")]] : List Row).enum.map
          (fun p => setCell p.2 "customer_sk" (toString (100 + p.1))) :=
  C10_missing_sk_plan newFrameA exFrameNoSk ["customer_id"]
    ["customer_name", "customer_segment"] "2024-06-01" _ _
    (fun i => toString (100 + i)) (by rfl) (by rfl)

/-- C9 counterexample: with the tracked column `marital_status` absent from the
incoming schema, `scd_type_2` fails as a whole (a KeyError propagates out of
the function): no insert or update plan is produced for any row, including the
entirely well-formed row for customer C2 - the failure is fatal to the whole
batch, not only to the affected row. -/
theorem C9_counterexample :
    scd_type_2 newFrameMiss exFrameB ["customer_id"]
      ["customer_name", "marital_status"] "2024-06-01" = .error "KeyError" := rfl

/-- C9 amended: whenever some configured tracked column is entirely absent
from the incoming schema (and no column of either schema collides with its
`_old`-suffixed name), the hash computation of `scd_type_2` raises KeyError
and the whole call fails - no plan is emitted for any row. -/
theorem C9_missing_tracked_field_fatal (newF existF : Frame) (keys cmp : List String)
    (today : String) (c : String) (hc : c ∈ cmp)
    (h1 : newF.cols.contains c = false)
    (h2 : (c ++ "_old") ∉ newF.cols)
    (h3 : ∀ d ∈ existF.cols, oldColName newF.cols keys d ≠ c ++ "_old") :
    scd_type_2 newF existF keys cmp today = .error "KeyError" := by
  have hg : scdGuard newF existF keys cmp = false := by
    unfold scdGuard
    have h4 : hashOk (cmp.map (fun x => x ++ "_old"))
        (mergedCols newF.cols existF.cols keys) = false := by
      apply List.all_eq_false.mpr
      refine ⟨c ++ "_old", List.mem_map.mpr ⟨c, hc, rfl⟩, ?_⟩
      have hnm : (c ++ "_old") ∉ mergedCols newF.cols existF.cols keys := by
        unfold mergedCols
        intro hmem
        rcases List.mem_append.mp hmem with hmem | hmem
        · exact h2 hmem
        · rcases List.mem_map.mp hmem with ⟨d, hd, hde⟩
          exact h3 d (List.mem_of_mem_filter hd) hde
      rw [contains_eq_false_of_not_mem hnm]
      exact Bool.false_ne_true
    rw [h4, Bool.and_false]
  unfold scd_type_2
  rw [hg]
  rfl

/-- C9 witness: the amended statement instantiated on the schema missing
`marital_status`. -/
theorem C9_witness :
    scd_type_2 newFrameMiss exFrameB ["customer_id"]
      ["customer_name", "marital_status"] "2024-06-01" = .error "KeyError" :=
  C9_missing_tracked_field_fatal newFrameMiss exFrameB ["customer_id"]
    ["customer_name", "marital_status"] "2024-06-01" "marital_status"
    (by decide) (by rfl) (by decide) (by decide)

/-! ### Claims about the Diff Classifier -/

/-- C4: when the current snapshot holds at most one row per incoming business
key (the stated input contract) and the hash computation succeeds, the
classification of `scd_type_2` into left-only (new), changed and unchanged is
a partition of the incoming rows: the three groups taken together are a
permutation of the incoming row list, so every incoming row appears in exactly
one group. -/
theorem C4_classification_partition (newF existF : Frame) (keys cmp : List String)
    (lo ch un : List (Row × Option Row))
    (hone : ∀ r ∈ newF.rows, (matchesOf keys existF.rows r).length ≤ 1)
    (h : scd_classify newF existF keys cmp = .ok (lo, ch, un)) :
    (((lo ++ ch) ++ un).map Prod.fst).Perm newF.rows := by
  by_cases hg : scdGuard newF existF keys cmp = true
  · simp only [scd_classify, hg, if_true, Except.ok.injEq, Prod.mk.injEq] at h
    obtain ⟨hlo, hch, hun⟩ := h
    subst hlo
    subst hch
    subst hun
    have hperm1 : (changedRecs newF existF keys cmp
        ++ unchangedRecs newF existF keys cmp).Perm (bothRecs newF existF keys) :=
      List.filter_append_perm _ _
    have hperm2 : (leftOnlyRecs newF existF keys ++ bothRecs newF existF keys).Perm
        (scdMerged newF existF keys) := filter_isNone_isSome_perm _
    have hperm3 : ((leftOnlyRecs newF existF keys ++ changedRecs newF existF keys cmp)
        ++ unchangedRecs newF existF keys cmp).Perm (scdMerged newF existF keys) := by
      rw [List.append_assoc]
      exact ((hperm1.append_left _).trans hperm2)
    have hperm4 := hperm3.map Prod.fst
    have hmap : (scdMerged newF existF keys).map Prod.fst = newF.rows := by
      unfold scdMerged
      rw [leftMerge_eq_map _ _ _ hone, List.map_map]
      rw [show (Prod.fst ∘ fun r =>
        (r, (matchesOf keys existF.rows r).head?)) = id from rfl]
      exact List.map_id _
    rw [hmap] at hperm4
    exact hperm4
  · simp only [scd_classify, Bool.not_eq_true] at h
    rw [Bool.not_eq_true] at hg
    rw [hg] at h
    simp at h

/-- C4 witness: one new plus one changed customer; the three groups together
are a permutation of the two incoming rows. -/
theorem C4_witness :
    ((([([("customer_id", "C2"), ("customer_name", "Bob"),
          ("customer_segment", "Silver")], (none : Option Row))]
      ++ [([("customer_id", "C1"), ("customer_name", "Ana Maria"),
            ("customer_segment", "Gold")],
           some [("customer_sk", "1"), ("customer_id", "C1"),
                 ("customer_name", "Ana"), ("customer_segment", "Gold")])])
      ++ ([] : List (Row × Option Row))).map Prod.fst).Perm newFrameA.rows :=
  C4_classification_partition newFrameA exFrameA ["customer_id"]
    ["customer_name", "customer_segment"] _ _ _ (by decide) (by rfl)

/-- Left-routing: an unsuffixed compare or key column of a merged record reads
the incoming row cell, provided every cell name of the matched row lies in a
set `S` none of whose `_old`-suffixed forms collides with the column. -/
theorem getCell_mergedRow_left_of (newCols keys S : List String) (r e : Row)
    (c : String) (hcN : newCols.contains c = true) (hcK : keys.contains c = false)
    (he : ∀ p ∈ e, p.1 ∈ S) (hS : ∀ d ∈ S, d ++ "_old" ≠ c) :
    getCell (mergedRow newCols keys (r, some e)) c = getCell r c := by
  apply getCell_mergedRow_left
  intro e2 he2 p hp hpk
  have he2e : e2 = e := by injection he2 with h2; exact h2.symm
  subst he2e
  unfold oldColName
  by_cases hcond : (newCols.contains p.1 && !(keys.contains p.1)) = true
  · rw [if_pos hcond]
    exact hS p.1 (he p hp)
  · rw [if_neg hcond]
    intro hpc
    rw [hpc] at hcond
    rw [hcN, hcK] at hcond
    exact hcond rfl

/-- Old-side routing: the `_old`-suffixed form of a compare column in a merged
record reads the matched existing row cell, provided neither frame has a
column literally carrying the suffixed name. -/
theorem getCell_mergedRow_old_of (newCols keys S : List String) (r e : Row)
    (c : String) (hcN : newCols.contains c = true) (hcK : keys.contains c = false)
    (hrN : ∀ p ∈ r, p.1 ∈ newCols) (heS : ∀ p ∈ e, p.1 ∈ S)
    (hnew : (c ++ "_old") ∉ newCols) (hS : (c ++ "_old") ∉ S) :
    getCell (mergedRow newCols keys (r, some e)) (c ++ "_old") = getCell e c := by
  apply getCell_mergedRow_right
  · intro p hp heq
    exact hnew (heq ▸ hrN p hp)
  · unfold oldColName
    rw [hcN, hcK]
    rfl
  · exact hcK
  · intro p hp hpk heq
    unfold oldColName at heq
    by_cases hcond : (newCols.contains p.1 && !(keys.contains p.1)) = true
    · rw [if_pos hcond] at heq
      exact string_append_cancel heq
    · rw [if_neg hcond] at heq
      exact absurd (heq ▸ heS p hp) hS

/-- C5 counterexample: change detection concatenates the stringified tracked
values (`create_hash` is `df[cols].astype(str).sum(axis=1)`), so the incoming
values ("ab", "c") and the current values ("a", "bc") - which differ
field-by-field - collide ("abc" = "abc"): the row is classified unchanged and
`scd_type_2` returns empty insert and update plans. -/
theorem C5_counterexample :
    scd_type_2 newFrameColl exFrameColl ["customer_id"]
        ["customer_name", "customer_segment"] "2024-06-01" = .ok ([], []) ∧
    changedRecs newFrameColl exFrameColl ["customer_id"]
        ["customer_name", "customer_segment"] = [] ∧
    getCell [("customer_id", "C1"), ("customer_name", "ab"),
        ("customer_segment", "c")] "customer_name"
      ≠ getCell [("customer_sk", "1"), ("customer_id", "C1"),
        ("customer_name", "a"), ("customer_segment", "bc")] "customer_name" := by
  refine ⟨rfl, rfl, ?_⟩
  decide

/-- C5 amended: the classifier compares the concatenation of the stringified
tracked values, so rows with identical stringified tracked values (columnwise)
are never classified changed - but rows whose values differ may collide after
concatenation and be classified unchanged, and missing values stringify to
"nan", so a missing value compares equal to a literal string "nan". -/
theorem C5_equal_values_unchanged (newF existF : Frame) (keys cmp : List String)
    (lo ch un : List (Row × Option Row)) (r e : Row)
    (h : scd_classify newF existF keys cmp = .ok (lo, ch, un))
    (hr : r ∈ newF.rows) (hm : matchesOf keys existF.rows r = [e])
    (hcmpN : ∀ c ∈ cmp, newF.cols.contains c = true)
    (hcmpK : ∀ c ∈ cmp, keys.contains c = false)
    (hrn : ∀ p ∈ r, p.1 ∈ newF.cols)
    (hen : ∀ p ∈ e, p.1 ∈ existF.cols)
    (hsfx1 : ∀ c ∈ cmp, ∀ d ∈ existF.cols, d ++ "_old" ≠ c)
    (hsfx2 : ∀ c ∈ cmp, (c ++ "_old") ∉ newF.cols ∧ (c ++ "_old") ∉ existF.cols)
    (hvals : ∀ c ∈ cmp, cellStr (getCell r c) = cellStr (getCell e c)) :
    (r, some e) ∈ un ∧ (r, some e) ∉ ch := by
  by_cases hg : scdGuard newF existF keys cmp = true
  · simp only [scd_classify, hg, if_true, Except.ok.injEq, Prod.mk.injEq] at h
    obtain ⟨hlo, hch, hun⟩ := h
    have hchg : isChanged newF.cols keys cmp (r, some e) = false := by
      apply isChanged_eq_false
      · intro c hc
        exact getCell_mergedRow_left_of newF.cols keys existF.cols r e c
          (hcmpN c hc) (hcmpK c hc) hen (hsfx1 c hc)
      · intro c hc
        exact getCell_mergedRow_old_of newF.cols keys existF.cols r e c
          (hcmpN c hc) (hcmpK c hc) hrn hen (hsfx2 c hc).1 (hsfx2 c hc).2
      · exact hvals
    have hmem : (r, some e) ∈ scdMerged newF existF keys := by
      apply mem_leftMerge_of_match hr
      rw [hm]
      exact List.mem_singleton.mpr rfl
    constructor
    · rw [← hun]
      unfold unchangedRecs
      apply List.mem_filter.mpr
      refine ⟨?_, by rw [hchg]; rfl⟩
      unfold bothRecs
      exact List.mem_filter.mpr ⟨hmem, rfl⟩
    · rw [← hch]
      intro hcontra
      unfold changedRecs at hcontra
      have := (List.mem_filter.mp hcontra).2
      rw [hchg] at this
      exact Bool.false_ne_true this
  · simp only [scd_classify, Bool.not_eq_true] at h
    rw [Bool.not_eq_true] at hg
    rw [hg] at h
    simp at h

/-- C5 witness: identical tracked values are classified unchanged. -/
theorem C5_witness :
    (([("customer_id", "C1"), ("customer_name", "Ana"),
       ("customer_segment", "Gold")] : Row),
     some ([("customer_sk", "1"), ("customer_id", "C1"), ("customer_name", "Ana"),
            ("customer_segment", "Gold")] : Row))
      ∈ [(([("customer_id", "C1"), ("customer_name", "Ana"),
            ("customer_segment", "Gold")] : Row),
          some ([("customer_sk", "1"), ("customer_id", "C1"),
                 ("customer_name", "Ana"), ("customer_segment", "Gold")] : Row))] ∧
    (([("customer_id", "C1"), ("customer_name", "Ana"),
       ("customer_segment", "Gold")] : Row),
     some ([("customer_sk", "1"), ("customer_id", "C1"), ("customer_name", "Ana"),
            ("customer_segment", "Gold")] : Row))
      ∉ ([] : List (Row × Option Row)) :=
  C5_equal_values_unchanged newFrameU exFrameA ["customer_id"]
    ["customer_name", "customer_segment"] [] [] _ _ _ (by rfl) (by decide)
    (by decide) (by decide) (by decide) (by decide) (by decide) (by decide)
    (by decide) (by decide)

/-! ### Helper lemmas for the idempotence claim -/

theorem contains_eq_true_of_mem {l : List String} {a : String} (h : a ∈ l) :
    l.contains a = true := List.elem_iff.mpr h

theorem mem_of_contains_eq_true {l : List String} {a : String}
    (h : l.contains a = true) : a ∈ l := List.elem_iff.mp h

theorem eq_singleton_of_head?_of_le {α : Type} {l : List α} {a : α}
    (h : l.head? = some a) (hl : l.length ≤ 1) : l = [a] := by
  cases l with
  | nil => cases h
  | cons b t =>
    have hb : b = a := by
      simp [List.head?] at h
      exact h
    subst hb
    cases t with
    | nil => rfl
    | cons c u => simp [List.length_cons] at hl

theorem snd_mem_of_mem_enumFrom {α : Type} {l : List α} {p : Nat × α} :
    ∀ {n : Nat}, p ∈ l.enumFrom n → p.2 ∈ l := by
  induction l with
  | nil => intro n h; cases h
  | cons a l ih =>
    intro n h
    rw [List.enumFrom_cons] at h
    rcases List.mem_cons.mp h with h1 | h1
    · rw [h1]
      exact List.mem_cons_self _ _
    · exact List.mem_cons_of_mem _ (ih h1)

theorem exists_mem_enumFrom_of_mem {α : Type} {l : List α} {a : α} (h : a ∈ l) :
    ∀ n : Nat, ∃ i, (i, a) ∈ l.enumFrom n := by
  induction l with
  | nil => cases h
  | cons b l ih =>
    intro n
    rcases List.mem_cons.mp h with h1 | h1
    · subst h1
      exact ⟨n, by rw [List.enumFrom_cons]; exact List.mem_cons_self _ _⟩
    · rcases ih h1 (n + 1) with ⟨i, hi⟩
      exact ⟨i, by rw [List.enumFrom_cons]; exact List.mem_cons_of_mem _ hi⟩

theorem matched_mem_exist {newRows exist : List Row} {keys : List String}
    {r e : Row} (hm : (r, some e) ∈ leftMerge newRows exist keys) : e ∈ exist := by
  rcases of_mem_leftMerge hm with ⟨r0, hr0, hcase⟩
  rcases hcase with ⟨hemp, heq⟩ | ⟨x0, hx0, heq⟩
  · have := congrArg Prod.snd heq
    simp at this
  · have h2 : some e = some x0 := congrArg Prod.snd heq
    have h3 : e = x0 := by injection h2
    subst h3
    exact (List.mem_filter.mp hx0).1

theorem matched_key_eq {exist : List Row} {keys : List String} {r e : Row}
    (h : e ∈ matchesOf keys exist r) : rowKey keys e = rowKey keys r := by
  have := (List.mem_filter.mp h).2
  exact beq_iff_eq.mp this

theorem mem_matchesOf_of {exist : List Row} {keys : List String} {r e : Row}
    (h1 : e ∈ exist) (h2 : rowKey keys e = rowKey keys r) :
    e ∈ matchesOf keys exist r :=
  List.mem_filter.mpr ⟨h1, beq_iff_eq.mpr h2⟩

theorem fst_mem_of_mem_setCell {r : Row} {c v : String} {p : String × String}
    (h : p ∈ setCell r c v) : p.1 = c ∨ p.1 ∈ r.map Prod.fst := by
  unfold setCell at h
  rcases List.mem_append.mp h with h1 | h1
  · exact Or.inr (List.mem_map.mpr ⟨p, (List.mem_filter.mp h1).1, rfl⟩)
  · simp at h1
    rw [h1]
    exact Or.inl rfl

theorem fst_mem_of_mem_projectRow {cols : List String} {r : Row}
    {p : String × String} (h : p ∈ projectRow cols r) : p.1 ∈ cols := by
  unfold projectRow at h
  rcases List.mem_filterMap.mp h with ⟨c, hc, hceq⟩
  cases hg : getCell r c with
  | none => rw [hg] at hceq; cases hceq
  | some v =>
    rw [hg] at hceq
    have : (c, v) = p := by injection hceq
    rw [← this]
    exact hc

/-- Every cell name of a committed insert row lies among the incoming columns
and the bookkeeping columns. -/
theorem names_insertRow {nc : List String} {today skv : String} {row : Row}
    {p : String × String}
    (h : p ∈ setCell (mkNewVersion nc today row) "customer_sk" skv) :
    p.1 ∈ nc ++ ["customer_sk", "current_flag", "eff_start_dt", "eff_end_dt"] := by
  apply List.mem_append.mpr
  rcases fst_mem_of_mem_setCell h with h1 | h1
  · exact Or.inr (by rw [h1]; simp)
  · rcases List.mem_map.mp h1 with ⟨q, hq, hqe⟩
    unfold mkNewVersion at hq
    rcases fst_mem_of_mem_setCell hq with h2 | h2
    · rw [← hqe, h2]
      exact Or.inr (by simp)
    · rcases List.mem_map.mp h2 with ⟨q2, hq2, hqe2⟩
      rcases fst_mem_of_mem_setCell hq2 with h3 | h3
      · rw [← hqe, ← hqe2, h3]
        exact Or.inr (by simp)
      · rcases List.mem_map.mp h3 with ⟨q3, hq3, hqe3⟩
        rcases fst_mem_of_mem_setCell hq3 with h4 | h4
        · rw [← hqe, ← hqe2, ← hqe3, h4]
          exact Or.inr (by simp)
        · rcases List.mem_map.mp h4 with ⟨q4, hq4, hqe4⟩
          rw [← hqe, ← hqe2, ← hqe3, ← hqe4]
          exact Or.inl (fst_mem_of_mem_projectRow hq4)

/-- Left-routing for a join-key column: the key cells of the matched row are
dropped by the merge, so the lookup reads the incoming row. -/
theorem getCell_mergedRow_left_key (newCols keys S : List String) (r e : Row)
    (k : String) (hkK : keys.contains k = true)
    (he : ∀ p ∈ e, p.1 ∈ S) (hS : ∀ d ∈ S, d ++ "_old" ≠ k) :
    getCell (mergedRow newCols keys (r, some e)) k = getCell r k := by
  apply getCell_mergedRow_left
  intro e2 he2 p hp hpk
  have he2e : e2 = e := by injection he2 with h2; exact h2.symm
  subst he2e
  unfold oldColName
  by_cases hcond : (newCols.contains p.1 && !(keys.contains p.1)) = true
  · rw [if_pos hcond]
    exact hS p.1 (he p hp)
  · rw [if_neg hcond]
    intro hpc
    rw [hpc, hkK] at hpk
    exact absurd hpk (by simp)

/-- Any merged record of the first run routes compare and key columns to its
incoming row. -/
theorem mergedRow_route_of_mem (newF existF : Frame) (keys : List String)
    (x : String) (m : Row × Option Row) (hm : m ∈ scdMerged newF existF keys)
    (hrnE : ∀ e ∈ existF.rows, ∀ p ∈ e, p.1 ∈ existF.cols)
    (hsfxE : ∀ d ∈ existF.cols, d ++ "_old" ≠ x)
    (hx : (newF.cols.contains x = true ∧ keys.contains x = false) ∨
      keys.contains x = true) :
    getCell (mergedRow newF.cols keys m) x = getCell m.1 x := by
  rcases m with ⟨r, o⟩
  cases o with
  | none => simp [mergedRow]
  | some e =>
    have heE : e ∈ existF.rows := matched_mem_exist hm
    rcases hx with ⟨h1, h2⟩ | h1
    · exact getCell_mergedRow_left_of newF.cols keys existF.cols r e x h1 h2
        (hrnE e heE) hsfxE
    · exact getCell_mergedRow_left_key newF.cols keys existF.cols r e x h1
        (hrnE e heE) hsfxE

/-- A committed insert row reads back, on any non-bookkeeping incoming column,
the cell of the merged record it was created from. -/
theorem insertRow_getCell (newCols keys : List String) (today skv x : String)
    (m : Row × Option Row) (hxN : newCols.contains x = true)
    (hxcf : x ≠ "current_flag") (hxsd : x ≠ "eff_start_dt")
    (hxed : x ≠ "eff_end_dt") (hxsk : x ≠ "customer_sk")
    (hroute : getCell (mergedRow newCols keys m) x = getCell m.1 x) :
    getCell (setCell (mkNewVersion newCols today (mergedRow newCols keys m))
        "customer_sk" skv) x = getCell m.1 x := by
  rw [getCell_setCell_ne _ _ _ _ hxsk,
      mkNewVersion_other _ _ _ _ hxcf hxsd hxed, hxN, if_pos rfl]
  exact hroute

/-- The surrogate-key cell of a merged record comes from the matched existing
row (the incoming frame has no such column). -/
theorem mergedRow_sk (newF existF : Frame) (keys : List String) (r e : Row)
    (hm : (r, some e) ∈ scdMerged newF existF keys)
    (hskN : newF.cols.contains "customer_sk" = false)
    (hkeysN : ∀ k ∈ keys, newF.cols.contains k = true)
    (hrnN : ∀ r2 ∈ newF.rows, ∀ p ∈ r2, p.1 ∈ newF.cols)
    (hrME : r ∈ newF.rows)
    (hrnE : ∀ e2 ∈ existF.rows, ∀ p ∈ e2, p.1 ∈ existF.cols)
    (hsfxE : ∀ d ∈ existF.cols, d ++ "_old" ≠ "customer_sk") :
    getCell (mergedRow newF.cols keys (r, some e)) "customer_sk"
      = getCell e "customer_sk" := by
  have heE : e ∈ existF.rows := matched_mem_exist hm
  have hskK : keys.contains "customer_sk" = false := by
    cases hc : keys.contains "customer_sk"
    · rfl
    · have := hkeysN "customer_sk" (mem_of_contains_eq_true hc)
      rw [hskN] at this
      exact absurd this Bool.false_ne_true
  apply getCell_mergedRow_right
  · intro p hp heq
    have := hrnN r hrME p hp
    rw [heq] at this
    exact absurd (contains_eq_true_of_mem this)
      (by rw [hskN]; exact Bool.false_ne_true)
  · unfold oldColName
    rw [hskN]
    rfl
  · exact hskK
  · intro p hp hpk heq
    unfold oldColName at heq
    by_cases hcond : (newF.cols.contains p.1 && !(keys.contains p.1)) = true
    · rw [if_pos hcond] at heq
      exact absurd heq (hsfxE p.1 (hrnE e heE p hp))
    · rw [if_neg hcond] at heq
      exact heq

/-- Every surrogate key named by the update plan is the surrogate key of the
matched existing row of some changed record. -/
theorem expired_of_mem (newF existF : Frame) (keys cmp : List String)
    (today s : String)
    (hs : s ∈ (scdUpdates newF existF keys cmp today).filterMap
      (fun u => getCell u "customer_sk")) :
    ∃ m ∈ changedRecs newF existF keys cmp,
      getCell (mergedRow newF.cols keys m) "customer_sk" = some s := by
  rcases List.mem_filterMap.mp hs with ⟨u, hu, hus⟩
  unfold scdUpdates at hu
  by_cases hsk : existF.cols.contains "customer_sk" = true
  · rw [if_pos hsk] at hu
    by_cases hemp : (changedRecs newF existF keys cmp).isEmpty = true
    · rw [if_pos hemp] at hu
      cases hu
    · rw [if_neg hemp] at hu
      rcases List.mem_map.mp hu with ⟨m, hmm, hme⟩
      refine ⟨m, hmm, ?_⟩
      rw [← hus, ← hme]
      exact (mkExpire_sk _ _).symm
  · rw [if_neg hsk] at hu
    cases hu

theorem eq_singleton_of_mem_of_length_le {α : Type} {l : List α} {a : α}
    (h : a ∈ l) (hl : l.length ≤ 1) : l = [a] := by
  cases l with
  | nil => cases h
  | cons b t =>
    cases t with
    | nil =>
      have : a = b := by simpa using h
      rw [this]
    | cons c u => simp [List.length_cons] at hl

/-- C8: committing the plan of one `scd_type_2` run and re-running it with the
identical incoming frame classifies every incoming row as unchanged and yields
an empty insert plan and an empty update plan.  Hypotheses: the incoming frame
has well-formed rows with pairwise distinct business keys, each key matches at
most one current row, the snapshot carries unique, present surrogate keys, the
key/compare columns avoid the bookkeeping columns, and no column name collides
with an `_old`-suffixed form (the suffix hygiene pandas relies on). -/
theorem C8_classify_write_idempotent (newF existF : Frame) (keys cmp : List String)
    (today today2 : String) (skOf : Nat → String) (ins upd : List Row)
    (hrun : scd_type_2 newF existF keys cmp today = .ok (ins, upd))
    (hone : ∀ r ∈ newF.rows, (matchesOf keys existF.rows r).length ≤ 1)
    (hinj : ∀ r1 ∈ newF.rows, ∀ r2 ∈ newF.rows,
      rowKey keys r1 = rowKey keys r2 → r1 = r2)
    (hskE : existF.cols.contains "customer_sk" = true)
    (hskN : newF.cols.contains "customer_sk" = false)
    (hkeysN : ∀ k ∈ keys, newF.cols.contains k = true)
    (hcmpN : ∀ c ∈ cmp, newF.cols.contains c = true)
    (hcmpK : ∀ c ∈ cmp, keys.contains c = false)
    (hmetaN : newF.cols.contains "current_flag" = false ∧
      newF.cols.contains "eff_start_dt" = false ∧
      newF.cols.contains "eff_end_dt" = false)
    (hrnN : ∀ r ∈ newF.rows, ∀ p ∈ r, p.1 ∈ newF.cols)
    (hrnE : ∀ e ∈ existF.rows, ∀ p ∈ e, p.1 ∈ existF.cols)
    (hskVal : ∀ e ∈ existF.rows, (getCell e "customer_sk").isSome = true)
    (hskInj : ∀ e1 ∈ existF.rows, ∀ e2 ∈ existF.rows,
      getCell e1 "customer_sk" = getCell e2 "customer_sk" → e1 = e2)
    (hsfx1 : ∀ c ∈ keys ++ cmp ++ ["customer_sk"],
      ∀ d ∈ newF.cols ++ existF.cols
        ++ ["customer_sk", "current_flag", "eff_start_dt", "eff_end_dt"],
      d ++ "_old" ≠ c)
    (hsfx2 : ∀ c ∈ cmp, (c ++ "_old") ∉ newF.cols ++ existF.cols
        ++ ["customer_sk", "current_flag", "eff_start_dt", "eff_end_dt"]) :
    scd_type_2 newF (applyPlan existF ins upd skOf) keys cmp today2
      = .ok ([], []) := by
  by_cases hg : scdGuard newF existF keys cmp = true
  · simp only [scd_type_2, hg, if_true, Except.ok.injEq, Prod.mk.injEq] at hrun
    obtain ⟨hins, hupd⟩ := hrun
    have hcols2 : (applyPlan existF ins upd skOf).cols = existF.cols := rfl
    have hrows2 : (applyPlan existF ins upd skOf).rows
        = existF.rows.filter (fun e =>
            match getCell e "customer_sk" with
            | some s => !((upd.filterMap
                (fun u => getCell u "customer_sk")).contains s)
            | none => true)
          ++ ins.enum.map (fun p => setCell p.2 "customer_sk" (skOf p.1)) := rfl
    have hmerged1 : scdMerged newF existF keys
        = newF.rows.map (fun r => (r, (matchesOf keys existF.rows r).head?)) := by
      unfold scdMerged
      exact leftMerge_eq_map _ _ _ hone
    have hrec : ∀ m ∈ scdMerged newF existF keys,
        m.1 ∈ newF.rows ∧ m = (m.1, (matchesOf keys existF.rows m.1).head?) := by
      intro m hm
      rw [hmerged1] at hm
      rcases List.mem_map.mp hm with ⟨r, hr, rfl⟩
      exact ⟨hr, rfl⟩
    have hProtCmp : ∀ c ∈ cmp, c ∈ keys ++ cmp ++ ["customer_sk"] := by
      intro c hc
      simp only [List.mem_append]
      tauto
    have hProtKC : ∀ x ∈ keys ++ cmp, x ∈ keys ++ cmp ++ ["customer_sk"] := by
      intro x hx
      simp only [List.mem_append] at hx ⊢
      tauto
    have hProtSk : "customer_sk" ∈ keys ++ cmp ++ ["customer_sk"] := by
      simp only [List.mem_append]
      simp
    have hAllOfS : ∀ d ∈ newF.cols
        ++ ["customer_sk", "current_flag", "eff_start_dt", "eff_end_dt"],
        d ∈ newF.cols ++ existF.cols
          ++ ["customer_sk", "current_flag", "eff_start_dt", "eff_end_dt"] := by
      intro d hd
      simp only [List.mem_append] at hd ⊢
      tauto
    have hAllOfE : ∀ d ∈ existF.cols, d ∈ newF.cols ++ existF.cols
        ++ ["customer_sk", "current_flag", "eff_start_dt", "eff_end_dt"] := by
      intro d hd
      simp only [List.mem_append]
      tauto
    have hSfxE : ∀ x ∈ keys ++ cmp ++ ["customer_sk"],
        ∀ d ∈ existF.cols, d ++ "_old" ≠ x :=
      fun x hx d hd => hsfx1 x hx d (hAllOfE d hd)
    have hSfxS : ∀ c ∈ cmp, ∀ d ∈ newF.cols
        ++ ["customer_sk", "current_flag", "eff_start_dt", "eff_end_dt"],
        d ++ "_old" ≠ c :=
      fun c hc d hd => hsfx1 c (hProtCmp c hc) d (hAllOfS d hd)
    have hSfx2S : ∀ c ∈ cmp, (c ++ "_old") ∉ newF.cols
        ++ ["customer_sk", "current_flag", "eff_start_dt", "eff_end_dt"] :=
      fun c hc hmem => hsfx2 c hc (hAllOfS _ hmem)
    have hSfx2N : ∀ c ∈ cmp, (c ++ "_old") ∉ newF.cols := by
      intro c hc hmem
      apply hsfx2 c hc
      simp only [List.mem_append]
      tauto
    have hNe : ∀ x, newF.cols.contains x = true →
        x ≠ "current_flag" ∧ x ≠ "eff_start_dt" ∧ x ≠ "eff_end_dt"
          ∧ x ≠ "customer_sk" := by
      intro x hx
      refine ⟨?_, ?_, ?_, ?_⟩ <;> intro he <;> rw [he] at hx
      · rw [hmetaN.1] at hx
        exact Bool.false_ne_true hx
      · rw [hmetaN.2.1] at hx
        exact Bool.false_ne_true hx
      · rw [hmetaN.2.2] at hx
        exact Bool.false_ne_true hx
      · rw [hskN] at hx
        exact Bool.false_ne_true hx
    have hqcell : ∀ m ∈ scdMerged newF existF keys, ∀ skv : String,
        ∀ x ∈ keys ++ cmp,
        getCell (setCell (mkNewVersion newF.cols today (mergedRow newF.cols keys m))
          "customer_sk" skv) x = getCell m.1 x := by
      intro m hm skv x hx
      have hxN : newF.cols.contains x = true := by
        rcases List.mem_append.mp hx with h | h
        · exact hkeysN x h
        · exact hcmpN x h
      have hne := hNe x hxN
      apply insertRow_getCell _ _ _ _ _ _ hxN hne.1 hne.2.1 hne.2.2.1 hne.2.2.2
      apply mergedRow_route_of_mem newF existF keys x m hm hrnE
      · exact hSfxE x (hProtKC x hx)
      · rcases List.mem_append.mp hx with h | h
        · exact Or.inr (contains_eq_true_of_mem h)
        · exact Or.inl ⟨hcmpN x h, hcmpK x h⟩
    have hqkey : ∀ m ∈ scdMerged newF existF keys, ∀ skv : String,
        rowKey keys (setCell (mkNewVersion newF.cols today
          (mergedRow newF.cols keys m)) "customer_sk" skv) = rowKey keys m.1 := by
      intro m hm skv
      unfold rowKey
      refine List.map_congr_left (fun k hk => ?_)
      exact hqcell m hm skv k (List.mem_append.mpr (Or.inl hk))
    have hins_mem : ∀ q ∈ ins, ∃ m ∈ scdMerged newF existF keys,
        q = mkNewVersion newF.cols today (mergedRow newF.cols keys m) := by
      intro q hq
      rw [← hins] at hq
      unfold scdInserts at hq
      rcases List.mem_append.mp hq with h | h
      · rcases List.mem_map.mp h with ⟨m, hm, hme⟩
        unfold leftOnlyRecs at hm
        exact ⟨m, (List.mem_filter.mp hm).1, hme.symm⟩
      · rcases List.mem_map.mp h with ⟨m, hm, hme⟩
        unfold changedRecs bothRecs at hm
        exact ⟨m, (List.mem_filter.mp (List.mem_filter.mp hm).1).1, hme.symm⟩
    have hInsMemL : ∀ m ∈ leftOnlyRecs newF existF keys,
        mkNewVersion newF.cols today (mergedRow newF.cols keys m) ∈ ins := by
      intro m hm
      rw [← hins]
      unfold scdInserts
      exact List.mem_append.mpr (Or.inl (List.mem_map.mpr ⟨m, hm, rfl⟩))
    have hInsMemC : ∀ m ∈ changedRecs newF existF keys cmp,
        mkNewVersion newF.cols today (mergedRow newF.cols keys m) ∈ ins := by
      intro m hm
      rw [← hins]
      unfold scdInserts
      exact List.mem_append.mpr (Or.inr (List.mem_map.mpr ⟨m, hm, rfl⟩))
    have hUpdMem : ∀ m ∈ changedRecs newF existF keys cmp,
        mkExpire "customer_sk" today (mergedRow newF.cols keys m) ∈ upd := by
      intro m hm
      rw [← hupd]
      unfold scdUpdates
      rw [if_pos hskE,
          if_neg (fun h => List.ne_nil_of_mem hm (List.isEmpty_iff.mp h))]
      exact List.mem_map.mpr ⟨m, hm, rfl⟩
    have hAB : ∀ r ∈ newF.rows,
        matchesOf keys (applyPlan existF ins upd skOf).rows r ≠ [] ∧
        (∀ x ∈ matchesOf keys (applyPlan existF ins upd skOf).rows r,
          isChanged newF.cols keys cmp (r, some x) = false) := by
      intro r hr
      have hmr : (r, (matchesOf keys existF.rows r).head?)
          ∈ scdMerged newF existF keys := by
        rw [hmerged1]
        exact List.mem_map.mpr ⟨r, hr, rfl⟩
      have hInsA : ∀ m ∈ scdMerged newF existF keys, m.1 = r →
          mkNewVersion newF.cols today (mergedRow newF.cols keys m) ∈ ins →
          matchesOf keys (applyPlan existF ins upd skOf).rows r ≠ [] := by
        intro m hm hm1 hq
        rcases exists_mem_enumFrom_of_mem hq 0 with ⟨i, hi⟩
        have hxmem : setCell (mkNewVersion newF.cols today
            (mergedRow newF.cols keys m)) "customer_sk" (skOf i)
            ∈ (applyPlan existF ins upd skOf).rows := by
          rw [hrows2]
          apply List.mem_append.mpr
          right
          exact List.mem_map.mpr ⟨(i, mkNewVersion newF.cols today
            (mergedRow newF.cols keys m)), hi, rfl⟩
        apply List.ne_nil_of_mem
        apply mem_matchesOf_of hxmem
        rw [hqkey m hm (skOf i), hm1]
      have hInsB : ∀ x ∈ ins.enum.map
          (fun p => setCell p.2 "customer_sk" (skOf p.1)),
          rowKey keys x = rowKey keys r →
          isChanged newF.cols keys cmp (r, some x) = false := by
        intro x hxm hkey
        rcases List.mem_map.mp hxm with ⟨p, hp, hpx⟩
        have hq : p.2 ∈ ins := snd_mem_of_mem_enumFrom hp
        rcases hins_mem p.2 hq with ⟨m, hm, hqe⟩
        have hxe : x = setCell (mkNewVersion newF.cols today
            (mergedRow newF.cols keys m)) "customer_sk" (skOf p.1) := by
          rw [← hpx, hqe]
        have hkx : rowKey keys x = rowKey keys m.1 := by
          rw [hxe]
          exact hqkey m hm (skOf p.1)
        have hm1r : m.1 = r :=
          hinj m.1 (hrec m hm).1 r hr (hkx.symm.trans hkey)
        have hxc : ∀ c ∈ cmp, getCell x c = getCell r c := by
          intro c hc
          rw [hxe, hqcell m hm (skOf p.1) c (List.mem_append.mpr (Or.inr hc)), hm1r]
        have hxnames : ∀ q2 ∈ x, q2.1 ∈ newF.cols
            ++ ["customer_sk", "current_flag", "eff_start_dt", "eff_end_dt"] := by
          intro q2 hq2
          rw [hxe] at hq2
          exact names_insertRow hq2
        apply isChanged_eq_false
        · intro c hc
          exact getCell_mergedRow_left_of newF.cols keys
            (newF.cols ++ ["customer_sk", "current_flag", "eff_start_dt",
              "eff_end_dt"]) r x c (hcmpN c hc) (hcmpK c hc) hxnames
            (hSfxS c hc)
        · intro c hc
          exact getCell_mergedRow_old_of newF.cols keys
            (newF.cols ++ ["customer_sk", "current_flag", "eff_start_dt",
              "eff_end_dt"]) r x c (hcmpN c hc) (hcmpK c hc) (hrnN r hr)
            hxnames (hSfx2N c hc) (hSfx2S c hc)
        · intro c hc
          rw [hxc c hc]
      cases ho : (matchesOf keys existF.rows r).head? with
      | none =>
        have hnil : matchesOf keys existF.rows r = [] :=
          List.head?_eq_none_iff.mp ho
        have hmrn : (r, (none : Option Row)) ∈ scdMerged newF existF keys := by
          rw [← ho]
          exact hmr
        have hlo : (r, (none : Option Row)) ∈ leftOnlyRecs newF existF keys :=
          List.mem_filter.mpr ⟨hmrn, rfl⟩
        constructor
        · exact hInsA (r, none) hmrn rfl (hInsMemL _ hlo)
        · intro x hx
          have hxr := List.mem_filter.mp hx
          have hxkey : rowKey keys x = rowKey keys r := beq_iff_eq.mp hxr.2
          rw [hrows2] at hxr
          rcases List.mem_append.mp hxr.1 with hxs | hxi
          · have hxE : x ∈ existF.rows := (List.mem_filter.mp hxs).1
            have : x ∈ matchesOf keys existF.rows r := mem_matchesOf_of hxE hxkey
            rw [hnil] at this
            cases this
          · exact hInsB x hxi hxkey
      | some e =>
        have hsing : matchesOf keys existF.rows r = [e] :=
          eq_singleton_of_head?_of_le ho (hone r hr)
        have heM : e ∈ matchesOf keys existF.rows r := by
          rw [hsing]
          exact List.mem_singleton.mpr rfl
        have heE : e ∈ existF.rows := (List.mem_filter.mp heM).1
        have hekey : rowKey keys e = rowKey keys r := matched_key_eq heM
        have hmrs : (r, some e) ∈ scdMerged newF existF keys := by
          rw [← ho]
          exact hmr
        have hboth : (r, some e) ∈ bothRecs newF existF keys :=
          List.mem_filter.mpr ⟨hmrs, rfl⟩
        by_cases hch : isChanged newF.cols keys cmp (r, some e) = true
        · -- changed: the old row is expired, the new insert is the partner
          have hchm : (r, some e) ∈ changedRecs newF existF keys cmp :=
            List.mem_filter.mpr ⟨hboth, hch⟩
          have hesk : ∃ s, getCell e "customer_sk" = some s := by
            have := hskVal e heE
            cases hv : getCell e "customer_sk" with
            | none => rw [hv] at this; cases this
            | some s => exact ⟨s, rfl⟩
          rcases hesk with ⟨s, hs⟩
          have hsExp : (upd.filterMap
              (fun u => getCell u "customer_sk")).contains s = true := by
            apply contains_eq_true_of_mem
            apply List.mem_filterMap.mpr
            refine ⟨mkExpire "customer_sk" today
              (mergedRow newF.cols keys (r, some e)), hUpdMem _ hchm, ?_⟩
            rw [mkExpire_sk]
            rw [mergedRow_sk newF existF keys r e hmrs hskN hkeysN hrnN hr hrnE
              (hSfxE "customer_sk" hProtSk)]
            exact hs
          constructor
          · exact hInsA (r, some e) hmrs rfl (hInsMemC _ hchm)
          · intro x hx
            have hxr := List.mem_filter.mp hx
            have hxkey : rowKey keys x = rowKey keys r := beq_iff_eq.mp hxr.2
            rw [hrows2] at hxr
            rcases List.mem_append.mp hxr.1 with hxs | hxi
            · have hxf := List.mem_filter.mp hxs
              have hxE : x ∈ existF.rows := hxf.1
              have hxM : x ∈ matchesOf keys existF.rows r :=
                mem_matchesOf_of hxE hxkey
              rw [hsing] at hxM
              have hxe2 : x = e := by simpa using hxM
              subst hxe2
              have hpred := hxf.2
              rw [hs] at hpred
              have hpred2 : (!((upd.filterMap
                  (fun u => getCell u "customer_sk")).contains s)) = true := hpred
              rw [hsExp] at hpred2
              simp at hpred2
            · exact hInsB x hxi hxkey
        · -- unchanged: the old row survives and stays the partner
          have hch2 : isChanged newF.cols keys cmp (r, some e) = false := by
            cases hcv : isChanged newF.cols keys cmp (r, some e)
            · rfl
            · exact absurd hcv hch
          have hesk : ∃ s, getCell e "customer_sk" = some s := by
            have := hskVal e heE
            cases hv : getCell e "customer_sk" with
            | none => rw [hv] at this; cases this
            | some s => exact ⟨s, rfl⟩
          rcases hesk with ⟨s, hs⟩
          have hsNotExp : (upd.filterMap
              (fun u => getCell u "customer_sk")).contains s = false := by
            cases hcv : (upd.filterMap (fun u => getCell u "customer_sk")).contains s
            · rfl
            · exfalso
              have hmemS := mem_of_contains_eq_true hcv
              rw [← hupd] at hmemS
              rcases expired_of_mem newF existF keys cmp today s hmemS
                with ⟨mj, hmj, hmjsk⟩
              have hmjB : mj ∈ bothRecs newF existF keys :=
                (List.mem_filter.mp hmj).1
              have hmjM : mj ∈ scdMerged newF existF keys :=
                (List.mem_filter.mp hmjB).1
              have hmjSome : mj.2.isSome = true := (List.mem_filter.mp hmjB).2
              rcases hrec mj hmjM with ⟨hmj1, hmjeq⟩
              cases hoj : (matchesOf keys existF.rows mj.1).head? with
              | none =>
                rw [hmjeq, hoj] at hmjSome
                cases hmjSome
              | some ej =>
                have hmjpair : mj = (mj.1, some ej) := by
                  rw [hmjeq, hoj]
                have hsingj : matchesOf keys existF.rows mj.1 = [ej] :=
                  eq_singleton_of_head?_of_le hoj (hone mj.1 hmj1)
                have hejM : ej ∈ matchesOf keys existF.rows mj.1 := by
                  rw [hsingj]
                  exact List.mem_singleton.mpr rfl
                have hejE : ej ∈ existF.rows := (List.mem_filter.mp hejM).1
                have hmjM2 : (mj.1, some ej) ∈ scdMerged newF existF keys := by
                  rw [← hmjpair]
                  exact hmjM
                have hejsk : getCell ej "customer_sk" = some s := by
                  rw [hmjpair] at hmjsk
                  rw [← mergedRow_sk newF existF keys mj.1 ej hmjM2 hskN hkeysN
                    hrnN hmj1 hrnE (hSfxE "customer_sk" hProtSk)]
                  exact hmjsk
                have heje : ej = e := hskInj ej hejE e heE (by rw [hejsk, hs])
                have hkeyj : rowKey keys mj.1 = rowKey keys r := by
                  have h1 : rowKey keys ej = rowKey keys mj.1 :=
                    matched_key_eq hejM
                  rw [heje] at h1
                  exact h1.symm.trans hekey
                have hmj1r : mj.1 = r := hinj mj.1 hmj1 r hr hkeyj
                have hmjmr : mj = (r, some e) := by
                  rw [hmjpair, hmj1r, heje]
                rw [hmjmr] at hmj
                have := (List.mem_filter.mp hmj).2
                rw [hch2] at this
                cases this
          have heSurv : e ∈ (applyPlan existF ins upd skOf).rows := by
            rw [hrows2]
            apply List.mem_append.mpr
            left
            apply List.mem_filter.mpr
            refine ⟨heE, ?_⟩
            simp only [hs]
            rw [hsNotExp]
            rfl
          constructor
          · exact List.ne_nil_of_mem (mem_matchesOf_of heSurv hekey)
          · intro x hx
            have hxr := List.mem_filter.mp hx
            have hxkey : rowKey keys x = rowKey keys r := beq_iff_eq.mp hxr.2
            rw [hrows2] at hxr
            rcases List.mem_append.mp hxr.1 with hxs | hxi
            · have hxE : x ∈ existF.rows := (List.mem_filter.mp hxs).1
              have hxM : x ∈ matchesOf keys existF.rows r :=
                mem_matchesOf_of hxE hxkey
              rw [hsing] at hxM
              have hxe2 : x = e := by simpa using hxM
              rw [hxe2]
              exact hch2
            · exact hInsB x hxi hxkey
    have hg2 : scdGuard newF (applyPlan existF ins upd skOf) keys cmp = true := by
      unfold scdGuard mergedCols at hg ⊢
      rw [hcols2]
      exact hg
    have hlo2 : leftOnlyRecs newF (applyPlan existF ins upd skOf) keys = [] := by
      unfold leftOnlyRecs
      apply List.filter_eq_nil_iff.mpr
      intro m hm
      unfold scdMerged at hm
      rcases of_mem_leftMerge hm with ⟨r, hrm, hcase⟩
      rcases hcase with ⟨hemp, heq⟩ | ⟨x, hx, heq⟩
      · exact absurd hemp (hAB r hrm).1
      · rw [heq]
        simp
    have hch2 : changedRecs newF (applyPlan existF ins upd skOf) keys cmp = [] := by
      unfold changedRecs
      apply List.filter_eq_nil_iff.mpr
      intro m hm
      unfold bothRecs at hm
      have hm2 := (List.mem_filter.mp hm).1
      unfold scdMerged at hm2
      rcases of_mem_leftMerge hm2 with ⟨r, hrm, hcase⟩
      rcases hcase with ⟨hemp, heq⟩ | ⟨x, hx, heq⟩
      · exact absurd hemp (hAB r hrm).1
      · rw [heq]
        rw [(hAB r hrm).2 x hx]
        simp
    have hins2 : scdInserts newF (applyPlan existF ins upd skOf) keys cmp today2
        = [] := by
      unfold scdInserts
      rw [hlo2, hch2]
      rfl
    have hupd2 : scdUpdates newF (applyPlan existF ins upd skOf) keys cmp today2
        = [] := by
      unfold scdUpdates
      rw [hcols2, hskE, hch2]
      simp
    simp only [scd_type_2, hg2, if_true, hins2, hupd2]
  · simp only [scd_type_2, Bool.not_eq_true] at hrun
    rw [Bool.not_eq_true] at hg
    rw [hg] at hrun
    simp at hrun

/-- C8 witness: the idempotence statement instantiated on one new plus one
changed customer; the second run against the committed state returns empty
plans. -/
theorem C8_witness :
    scd_type_2 newFrameA
      (applyPlan exFrameA
        [[("customer_id", "C2"), ("customer_name", "Bob"),
          ("customer_segment", "Silver"), ("current_flag", "1"),
          ("eff_start_dt", "2024-06-01"), ("eff_end_dt", "9999-12-31")],
         [("customer_id", "C1"), ("customer_name", "Ana Maria"),
          ("customer_segment", "Gold"), ("current_flag", "1"),
          ("eff_start_dt", "2024-06-01"), ("eff_end_dt", "9999-12-31")]]
        [[("customer_sk", "1"), ("current_flag", "0"),
          ("eff_end_dt", "2024-06-01")]]
        (fun i => toString (100 + i)))
      ["customer_id"] ["customer_name", "customer_segment"] "2024-07-01"
      = .ok ([], []) :=
  C8_classify_write_idempotent newFrameA exFrameA ["customer_id"]
    ["customer_name", "customer_segment"] "2024-06-01" "2024-07-01"
    (fun i => toString (100 + i)) _ _ (by rfl) (by decide) (by decide)
    (by decide) (by decide) (by decide) (by decide) (by decide) (by decide)
    (by decide) (by decide) (by decide) (by decide) (by decide) (by decide)
